import Mathlib

/-!
# acmed: certificate lifecycle (config.go, run.go)

A shallow embedding of the per-domain driver `getCert` and the functions it
calls.  The program talks to three things it does not own: the file system,
the ACME certificate authority (through golang.org/x/crypto/acme) and the Go
standard library codecs (PEM, X.509, JSON).  They are represented as follows.

* the file system is part of the `World` (a map from cleaned paths to nodes);
* every answer of the outside (CA replies, codec results, I/O failures, the
  clock, key generation) is a field of `Env`, so each theorem quantified over
  `Env` holds for every behaviour of the outside;
* every CA call, key generation and listener operation is appended to
  `World.trace`, the way a mocked CA records calls.
-/

namespace Acmed

/-! ## Data model -/

/-- Raw file contents (`[]byte`). -/
abbrev Bytes := List UInt8

/-- Result of a library or remote call: a value or an error message. -/
inductive Reply (α : Type) where
  | ok (a : α)
  | fail (msg : String)
  deriving DecidableEq, Repr

/-- A Go `error` value, by origin.  `notExist` is the only kind for which
`os.IsNotExist` answers true. -/
inductive Error where
  /-- a `*os.PathError` carrying ENOENT. -/
  | notExist (path : String)
  /-- any other failure of a file-system call on `path`. -/
  | fs (path : String) (msg : String)
  /-- an error returned by a library or by the CA client. -/
  | lib (msg : String)
  /-- the error `fmt.Errorf("no block found in %q", path)`. -/
  | noBlock (path : String)
  /-- the error `fmt.Errorf("%q is unsupported", typ)`. -/
  | unsupported (typ : String)
  /-- the error `errors.New("no supported challenge found")`. -/
  | noSupportedChallenge
  /-- the error `fmt.Errorf("listen %s: %v", addr, err)`. -/
  | listen (addr : String) (msg : String)
  /-- the error `fmt.Errorf("accept challenge: %v", err)`. -/
  | acceptChallenge (msg : String)
  /-- the error `fmt.Errorf("%s: %v", domain, err)`. -/
  | wrap (domain : String) (inner : Error)
  deriving DecidableEq, Repr

deriving instance DecidableEq for Except

/-- The predicate `os.IsNotExist`. -/
def Error.isNotExist : Error → Bool
  | .notExist _ => true
  | _ => false

/-- A `crypto.Signer`: an RSA or an ECDSA private key, identified by its key
material. -/
inductive Signer where
  | rsa (d : Nat)
  | ecdsa (d : Nat)
  deriving DecidableEq, Repr

/-- A decoded PEM block (`pem.Block` without headers). -/
structure Block where
  type : String
  bytes : Bytes
  deriving DecidableEq, Repr

/-- The part of `x509.Certificate` the program reads: the not-after instant,
in nanoseconds since the epoch. -/
structure Certificate where
  NotAfter : Int
  deriving DecidableEq, Repr

/-- The fields of `acme.Account` that are exchanged with the CA. -/
structure Account where
  URI : String
  Contact : List String
  AgreedTerms : String
  deriving DecidableEq, Repr

/-- Type `accountConfig` of config.go: the embedded `acme.Account`, the CA
discovery URL and the separately stored key (`nil` when not loaded). -/
structure accountConfig where
  Account : Account
  CA : String
  key : Option Signer
  deriving DecidableEq, Repr

/-- An `acme.Challenge`. -/
structure Challenge where
  type : String
  URI : String
  Token : String
  deriving DecidableEq, Repr

/-- An `acme.Authorization`. -/
structure Authorization where
  URI : String
  Status : String
  Challenges : List Challenge
  deriving DecidableEq, Repr

/-- The `acme.Client` literal built by the program. -/
structure Client where
  Key : Option Signer
  DirectoryURL : String
  deriving DecidableEq, Repr

/-- Type `configServerWeb` of config.go after `runRun` has filled in the
defaults, so that every pointer field is non-nil.  `Remaining` is a `uint64`. -/
structure configServerWeb where
  Email : String
  Domain : String
  Disco : String
  Remaining : Nat
  Bundle : Bool
  deriving DecidableEq, Repr

/-- What the recorder sees: CA calls with their replies, key generation, and
the life of the challenge listener. -/
inductive Event where
  | register (client : Client) (acct : Account) (resp : Reply Account)
  | authorize (client : Client) (domain : String) (resp : Reply Authorization)
  | accept (client : Client) (chal : Challenge) (resp : Reply Challenge)
  | waitAuthorization (client : Client) (uri : String) (resp : Reply Authorization)
  | createCert (client : Client) (csr : Bytes) (bundle : Bool) (resp : Reply (List Bytes))
  | generateKey (resp : Reply Nat)
  | listenOpen (addr : String)
  | listenClose (addr : String)
  | serve (addr : String) (path : String) (value : String)
  deriving DecidableEq, Repr

/-- A directory entry as the program can observe it. -/
inductive Node where
  /-- a regular file that can be read. -/
  | file (data : Bytes)
  /-- something is there but reading it fails (a directory, no permission). -/
  | unreadable
  deriving DecidableEq, Repr

/-- State outside the function being run: files, the call record, the
listeners this process holds open, and the package variable `serverAddress`. -/
structure World where
  files : String → Option Node
  trace : List Event
  listeners : List String
  serverAddress : String

/-- Outcome of writing `data` to an open file. -/
inductive WriteOutcome where
  /-- all bytes were written. -/
  | done
  /-- the write failed after `n` bytes. -/
  | short (n : Nat) (msg : String)
  deriving DecidableEq, Repr

/-- Everything the outside decides.  Codecs are functions of their input;
I/O outcomes, the CA and the random source may also depend on the world. -/
structure Env where
  /-- call `pem.Decode`, first block only. -/
  pemDecode : Bytes → Option Block
  /-- call `pem.EncodeToMemory`. -/
  pemEncodeToMemory : Block → Bytes
  /-- call `x509.ParsePKCS1PrivateKey`. -/
  parsePKCS1PrivateKey : Bytes → Reply Nat
  /-- call `x509.ParseECPrivateKey`. -/
  parseECPrivateKey : Bytes → Reply Nat
  /-- call `x509.MarshalECPrivateKey`. -/
  marshalECPrivateKey : Nat → Reply Bytes
  /-- call `x509.ParseCertificate`. -/
  parseCertificate : Bytes → Reply Certificate
  /-- call `json.Unmarshal` into an `accountConfig`. -/
  jsonUnmarshal : Bytes → Reply accountConfig
  /-- call `json.MarshalIndent` of an `accountConfig`. -/
  jsonMarshalIndent : accountConfig → Reply Bytes
  /-- call `x509.CreateCertificateRequest` for a common name and a key. -/
  createCertificateRequest : World → String → Signer → Reply Bytes
  /-- call `client.HTTP01ChallengeResponse`. -/
  http01ChallengeResponse : Client → String → Reply String
  /-- call `time.Now()`, nanoseconds since the epoch. -/
  now : Int
  /-- call `ecdsa.GenerateKey(elliptic.P256(), rand.Reader)`. -/
  generateKey : World → Reply Nat
  /-- call `os.MkdirAll`: `some msg` on failure. -/
  mkdirAll : World → String → Option String
  /-- call `os.OpenFile(path, O_WRONLY|O_CREATE|O_TRUNC, perm)`: `some msg` on failure. -/
  openFile : World → String → Option String
  /-- writing to the open file. -/
  write : World → String → Bytes → WriteOutcome
  /-- call `f.Close()`: `some msg` on failure. -/
  close : World → String → Option String
  /-- call `net.Listen("tcp", addr)`: `some msg` on failure. -/
  netListen : World → String → Option String
  /-- call `client.Register`. -/
  register : World → Client → Account → Reply Account
  /-- call `client.Authorize`. -/
  authorize : World → Client → String → Reply Authorization
  /-- call `client.Accept`. -/
  accept : World → Client → Challenge → Reply Challenge
  /-- call `client.WaitAuthorization`. -/
  waitAuthorization : World → Client → String → Reply Authorization
  /-- call `client.CreateCert`, the DER chain only. -/
  createCert : World → Client → Bytes → Bool → Reply (List Bytes)

/-- A function result that is a value, a returned `error`, or a run-time panic. -/
inductive Res (α : Type) where
  | ok (a : α)
  | err (e : Error)
  | panic (msg : String)
  deriving DecidableEq, Repr

/-! ## Package variables of config.go -/

def defaultConfigDir : String := "./"

def defaultAddress : String := "0.0.0.0:4402"

def defaultRemaining : Nat := 21

def rsaPrivateKey : String := "RSA PRIVATE KEY"

def ecPrivateKey : String := "EC PRIVATE KEY"

def x509PublicKey : String := "CERTIFICATE"

/-! ## path/filepath (Unix) -/

/-- The elements of a path between separators. -/
def splitSlash : List Char → List (List Char)
  | [] => [[]]
  | c :: cs =>
    if c = '/' then [] :: splitSlash cs
    else
      match splitSlash cs with
      | [] => [[c]]
      | x :: xs => (c :: x) :: xs

/-- One element of `filepath.Clean`; `out` is the output so far, last element
first.  Empty and `.` elements are dropped, `..` removes the element before it
when there is one that is not itself `..`, and is kept only in a path that is
not rooted. -/
def cleanStep (rooted : Bool) (out : List (List Char)) (e : List Char) : List (List Char) :=
  if e = [] ∨ e = ['.'] then out
  else if e = ['.', '.'] then
    match out with
    | [] => if rooted then [] else [e]
    | top :: rest => if top = ['.', '.'] then e :: out else rest
  else e :: out

/-- Function `filepath.Clean`. -/
def Clean (path : String) : String :=
  if path.data = [] then "."
  else
    let rooted := path.data.head? == some '/'
    let out := ((splitSlash path.data).foldl (cleanStep rooted) []).reverse
    if rooted then String.mk ('/' :: List.intercalate ['/'] out)
    else if out = [] then "."
    else String.mk (List.intercalate ['/'] out)

/-- Function `filepath.Join`: leading empty elements are skipped, the rest is
joined with the separator and cleaned. -/
def Join (elem : List String) : String :=
  match elem.dropWhile (fun e => e.data.isEmpty) with
  | [] => ""
  | es => Clean (String.mk (List.intercalate ['/'] (es.map String.data)))

/-- Function `filepath.Dir`: the path up to its last separator, cleaned. -/
def Dir (path : String) : String :=
  Clean (String.mk (path.data.reverse.dropWhile (fun c => c != '/')).reverse)

/-! ## File-system primitives -/

/-- Replace the node at `path`. -/
def World.setFile (w : World) (path : String) (data : Bytes) : World :=
  { w with files := fun q => if q = path then some (Node.file data) else w.files q }

/-- Append an event to the record. -/
def World.log (w : World) (e : Event) : World :=
  { w with trace := w.trace ++ [e] }

/-- Function `ioutil.ReadFile`. -/
def ReadFile (w : World) (path : String) : Except Error Bytes :=
  match w.files path with
  | none => .error (.notExist path)
  | some Node.unreadable => .error (.fs path "read")
  | some (Node.file b) => .ok b

/-- Function `os.MkdirAll`; directories are not part of `World.files`. -/
def MkdirAll (env : Env) (path : String) (w : World) : Option Error :=
  match env.mkdirAll w path with
  | some msg => some (.fs path msg)
  | none => none

/-- Function `ioutil.WriteFile`: open with `O_WRONLY|O_CREATE|O_TRUNC`, write,
close; the first error is returned.  The file is truncated as soon as the open
succeeds. -/
def WriteFile (env : Env) (path : String) (data : Bytes) (w : World) : Option Error × World :=
  match env.openFile w path with
  | some msg => (some (.fs path msg), w)
  | none =>
    let w1 := w.setFile path []
    match env.write w1 path data with
    | .short n msg => (some (.fs path msg), w1.setFile path (data.take n))
    | .done =>
      let w2 := w1.setFile path data
      match env.close w2 path with
      | some msg => (some (.fs path msg), w2)
      | none => (none, w2)

/-! ## config.go -/

/-- Function `readKey` of config.go: read `path`, take the first PEM block and
parse it as an RSA or an EC private key according to the block type. -/
def readKey (env : Env) (path : String) (w : World) : Except Error Signer :=
  match ReadFile w path with
  | .error e => .error e
  | .ok b =>
    match env.pemDecode b with
    | none => .error (.noBlock path)
    | some d =>
      if d.type = rsaPrivateKey then
        match env.parsePKCS1PrivateKey d.bytes with
        | .ok k => .ok (Signer.rsa k)
        | .fail msg => .error (.lib msg)
      else if d.type = ecPrivateKey then
        match env.parseECPrivateKey d.bytes with
        | .ok k => .ok (Signer.ecdsa k)
        | .fail msg => .error (.lib msg)
      else .error (.unsupported d.type)

/-- Function `writeKey` of config.go: create the parent directories, open the
file (create, truncate), marshal the EC key, write it as a PEM block and close.
A failed marshal returns with the file already truncated; a failed write
closes the file and returns the write error. -/
def writeKey (env : Env) (path : String) (k : Nat) (w : World) : Option Error × World :=
  match MkdirAll env (Dir path) w with
  | some e => (some e, w)
  | none =>
    match env.openFile w path with
    | some msg => (some (.fs path msg), w)
    | none =>
      let w1 := w.setFile path []
      match env.marshalECPrivateKey k with
      | .fail msg => (some (.lib msg), w1)
      | .ok bytes =>
        let b := env.pemEncodeToMemory ⟨ecPrivateKey, bytes⟩
        match env.write w1 path b with
        | .short n msg => (some (.fs path msg), w1.setFile path (b.take n))
        | .done =>
          let w2 := w1.setFile path b
          match env.close w2 path with
          | some msg => (some (.fs path msg), w2)
          | none => (none, w2)

/-- Function `anyKey` of config.go: the key read from `filename`; when reading
fails with a does-not-exist error and `gen` is set, a freshly generated P-256
key, which is also written to `filename`. -/
def anyKey (env : Env) (filename : String) (gen : Bool) (w : World) : Except Error Signer × World :=
  match readKey env filename w with
  | .ok k => (.ok k, w)
  | .error err =>
    if !err.isNotExist || !gen then (.error err, w)
    else
      let resp := env.generateKey w
      let w1 := w.log (.generateKey resp)
      match resp with
      | .fail msg => (.error (.lib msg), w1)
      | .ok ecKey =>
        match writeKey env filename ecKey w1 with
        | (some e, w2) => (.error e, w2)
        | (none, w2) => (.ok (Signer.ecdsa ecKey), w2)

/-- Function `readAccountConfig` of config.go.  The record is read from
`Join(Dir(defaultConfigDir), domain, "account.json")`, the key from
`Join(defaultConfigDir, "webs", domain, "account.key")`; a key that does not
load leaves `key` nil. -/
def readAccountConfig (env : Env) (domain : String) (w : World) : Except Error accountConfig :=
  match ReadFile w (Join [Dir defaultConfigDir, domain, "account.json"]) with
  | .error e => .error e
  | .ok b =>
    match env.jsonUnmarshal b with
    | .fail msg => .error (.lib msg)
    | .ok ac0 =>
      let ac := { ac0 with key := none }
      match readKey env (Join [defaultConfigDir, "webs", domain, "account.key"]) w with
      | .ok key => .ok { ac with key := some key }
      | .error _ => .ok ac

/-- Function `writeAccountConfig` of config.go: marshal, create the directory
`Join(Dir(defaultConfigDir), "webs", domain)` and write `account.json` in it. -/
def writeAccountConfig (env : Env) (domain : String) (ac : accountConfig) (w : World) :
    Option Error × World :=
  match env.jsonMarshalIndent ac with
  | .fail msg => (some (.lib msg), w)
  | .ok b =>
    match MkdirAll env (Join [Dir defaultConfigDir, "webs", domain]) w with
    | some e => (some e, w)
    | none => WriteFile env (Join [Dir defaultConfigDir, "webs", domain, "account.json"]) b w

/-- Function `readCrt` of config.go: read `path`, take the first PEM block,
require type CERTIFICATE and parse it. -/
def readCrt (env : Env) (path : String) (w : World) : Except Error Certificate :=
  match ReadFile w path with
  | .error e => .error e
  | .ok b =>
    match env.pemDecode b with
    | none => .error (.noBlock path)
    | some d =>
      if d.type ≠ x509PublicKey then .error (.unsupported d.type)
      else
        match env.parseCertificate d.bytes with
        | .ok crt => .ok crt
        | .fail msg => .error (.lib msg)

/-! ## time -/

/-- Largest `time.Duration`, in nanoseconds. -/
def maxDuration : Int := 9223372036854775807

/-- Smallest `time.Duration`, in nanoseconds. -/
def minDuration : Int := -9223372036854775808

/-- Method `Time.Sub`: the difference of two instants as a duration, held at
the largest or smallest duration when it does not fit. -/
def Time.Sub (t u : Int) : Int :=
  if t - u > maxDuration then maxDuration
  else if t - u < minDuration then minDuration
  else t - u

/-- Conversion to `int64`: reduction modulo 2^64 into the signed range. -/
def toInt64 (x : Int) : Int :=
  (x + 9223372036854775808) % 18446744073709551616 - 9223372036854775808

/-- Multiplication of two `time.Duration` values (wraps around). -/
def Duration.mul (a b : Int) : Int := toInt64 (a * b)

/-- Constant `time.Hour`, in nanoseconds. -/
def Hour : Int := 3600000000000

/-- Nanoseconds in a day, as an exact integer. -/
def nsPerDay : Int := 86400000000000

/-- Expression `time.Duration(*c.Remaining)*24*time.Hour` of getCert; the
operand is a `uint64`. -/
def remainingDuration (remaining : Nat) : Int :=
  Duration.mul (Duration.mul (toInt64 ((remaining % 18446744073709551616 : Nat) : Int)) 24) Hour

/-- The renewal check of getCert (run.go lines 85-86): true when the
certificate is not re-issued. -/
def stillValid (notAfter now : Int) (remaining : Nat) : Bool :=
  decide (Time.Sub notAfter now > remainingDuration remaining)

/-! ## run.go -/

/-- Constant `acme.StatusValid`. -/
def StatusValid : String := "valid"

/-- Method `client.HTTP01ChallengePath`. -/
def HTTP01ChallengePath (token : String) : String := "/.well-known/acme-challenge/" ++ token

/-- The bytes of a Go string (`[]byte(value)`), as UTF-8. -/
def stringBytes (s : String) : Bytes := s.data.flatMap (fun c => String.utf8EncodeChar c)

/-- An inbound request, as far as the handler reads it. -/
structure Request where
  Method : String
  URLPath : String
  deriving DecidableEq, Repr

/-- An `http.ResponseWriter` that records what is written to it. -/
structure ResponseRecorder where
  wroteHeader : Bool
  code : Nat
  body : Bytes
  deriving DecidableEq, Repr

/-- A fresh writer: no header sent, status 200 unless one is set. -/
def ResponseRecorder.fresh : ResponseRecorder := ⟨false, 200, []⟩

/-- Method `WriteHeader`: the first status code wins. -/
def ResponseRecorder.WriteHeader (w : ResponseRecorder) (code : Nat) : ResponseRecorder :=
  if w.wroteHeader then w else { w with wroteHeader := true, code := code }

/-- Method `Write`: sends the header with status 200 if none was sent, then
appends to the body. -/
def ResponseRecorder.Write (w : ResponseRecorder) (b : Bytes) : ResponseRecorder :=
  let w1 := if w.wroteHeader then w else w.WriteHeader 200
  { w1 with body := w1.body ++ b }

/-- Function `http01Handler` of run.go. -/
def http01Handler (path value : String) (w : ResponseRecorder) (r : Request) : ResponseRecorder :=
  if r.URLPath ≠ path then w.WriteHeader 404
  else w.Write (stringBytes value)

/-- Bind a listener on `addr`. -/
def World.openListener (w : World) (addr : String) : World :=
  { w with listeners := addr :: w.listeners }

/-- Release the listener on `addr`. -/
def World.closeListener (w : World) (addr : String) : World :=
  { w with listeners := w.listeners.erase addr }

/-- Lines 213-224 of `authz`, the code that runs while the listener is open:
compute the key authorization, start serving it on the listener `addr`, accept
the challenge and wait for the authorization. -/
def answerChallenge (env : Env) (client : Client) (z : Authorization) (chal : Challenge)
    (addr : String) (w : World) : Option Error × World :=
  match env.http01ChallengeResponse client chal.Token with
  | .fail msg => (some (.lib msg), w)
  | .ok val =>
    let w1 := w.log (.serve addr (HTTP01ChallengePath chal.Token) val)
    let ra := env.accept w1 client chal
    let w2 := w1.log (.accept client chal ra)
    match ra with
    | .fail msg => (some (.acceptChallenge msg), w2)
    | .ok _ =>
      let rw := env.waitAuthorization w2 client z.URI
      let w3 := w2.log (.waitAuthorization client z.URI rw)
      match rw with
      | .fail msg => (some (.lib msg), w3)
      | .ok _ => (none, w3)

/-- Function `authz` of run.go.  The deferred `ln.Close()` runs after the code
that follows the successful `net.Listen`, whatever that code returns. -/
def authz (env : Env) (client : Client) (domain : String) (w : World) : Option Error × World :=
  let resp := env.authorize w client domain
  let w1 := w.log (.authorize client domain resp)
  match resp with
  | .fail msg => (some (.lib msg), w1)
  | .ok z =>
    if z.Status = StatusValid then (none, w1)
    else
      match z.Challenges.find? (fun c => c.type == "http-01") with
      | none => (some .noSupportedChallenge, w1)
      | some chal =>
        let addr := w1.serverAddress
        match env.netListen w1 addr with
        | some msg => (some (.listen addr msg), w1)
        | none =>
          let w2 := (w1.log (.listenOpen addr)).openListener addr
          let r := answerChallenge env client z chal addr w2
          (r.1, (r.2.log (.listenClose addr)).closeListener addr)

/-- Lines 154-183 of `generateAccountConfig`: create the directory, load or
generate the account key, register with the configured contact, store the
account the CA returned. -/
def registerAccount (env : Env) (c : configServerWeb) (w : World) : Res accountConfig × World :=
  match MkdirAll env (Join [Dir defaultConfigDir, "webs", c.Domain]) w with
  | some e => (.err e, w)
  | none =>
    match anyKey env (Join [Dir defaultConfigDir, "webs", c.Domain, "account.key"]) true w with
    | (.error e, w1) => (.err e, w1)
    | (.ok key, w1) =>
      let acct : Account := { URI := "", Contact := ["mailto:" ++ c.Email], AgreedTerms := "" }
      let client : Client := { Key := some key, DirectoryURL := c.Disco }
      let resp := env.register w1 client acct
      let w2 := w1.log (.register client acct resp)
      match resp with
      | .fail msg => (.err (.lib msg), w2)
      | .ok a =>
        let ac : accountConfig := { Account := a, CA := "", key := some key }
        match writeAccountConfig env c.Domain ac w2 with
        | (some e, w3) => (.err e, w3)
        | (none, w3) => (.ok ac, w3)

/-- Function `generateAccountConfig` of run.go.  When the stored record and its
key load, `ac.Contact[0]` is compared with the configured contact; indexing an
empty contact list panics. -/
def generateAccountConfig (env : Env) (c : configServerWeb) (w : World) :
    Res accountConfig × World :=
  match readAccountConfig env c.Domain w with
  | .ok ac =>
    if ac.key ≠ none then
      match ac.Account.Contact with
      | [] => (.panic "index out of range [0] with length 0", w)
      | first :: _ =>
        if first = "mailto:" ++ c.Email then (.ok ac, w)
        else registerAccount env c w
    else registerAccount env c w
  | .error _ => registerAccount env c w

/-- The loop of getCert (run.go lines 132-136): PEM-encode each DER
certificate and append it to `pemcert`. -/
def encodeChain (env : Env) (cert : List Bytes) : Bytes :=
  cert.foldl (fun pemcert b => pemcert ++ env.pemEncodeToMemory ⟨x509PublicKey, b⟩) []

/-- Lines 93-142 of `getCert`, the code after the renewal check: load or
generate the certificate key, build the CSR, run `authz`, call `CreateCert`
and write the encoded chain to the certificate file. -/
def issueCert (env : Env) (c : configServerWeb) (ac : accountConfig) (w : World) :
    Res Unit × World :=
  match anyKey env (Join [defaultConfigDir, "webs", c.Domain, c.Domain ++ ".key"]) true w with
  | (.error e, w2) => (.err e, w2)
  | (.ok crtKey, w2) =>
    match env.createCertificateRequest w2 c.Domain crtKey with
    | .fail msg => (.err (.lib msg), w2)
    | .ok csr =>
      let client : Client := { Key := ac.key, DirectoryURL := c.Disco }
      match authz env client c.Domain w2 with
      | (some e, w3) => (.err (.wrap c.Domain e), w3)
      | (none, w3) =>
        let resp := env.createCert w3 client csr c.Bundle
        let w4 := w3.log (.createCert client csr c.Bundle resp)
        match resp with
        | .fail msg => (.err (.wrap c.Domain (.lib msg)), w4)
        | .ok cert =>
          match WriteFile env (Join [defaultConfigDir, "webs", c.Domain, c.Domain ++ ".crt"])
              (encodeChain env cert) w4 with
          | (some e, w5) => (.err (.wrap c.Domain e), w5)
          | (none, w5) => (.ok (), w5)

/-- Function `getCert` of run.go: account setup first, then the renewal check on
the certificate file, then issuance unless the check says the certificate is
still valid. -/
def getCert (env : Env) (c : configServerWeb) (w : World) : Res Unit × World :=
  match generateAccountConfig env c w with
  | (.panic msg, w1) => (.panic msg, w1)
  | (.err e, w1) => (.err e, w1)
  | (.ok ac, w1) =>
    let skip :=
      match readCrt env (Join [defaultConfigDir, "webs", c.Domain, c.Domain ++ ".crt"]) w1 with
      | .ok crt => stillValid crt.NotAfter env.now c.Remaining
      | .error _ => false
    if skip then (.ok (), w1)
    else issueCert env c ac w1

/-! ## Observations used to state the properties -/

/-- The events appended to the record between `w` and a later world `w1`. -/
def newEvents (w w1 : World) : List Event := w1.trace.drop w.trace.length

/-- A `Register` call. -/
def Event.isRegister : Event → Bool
  | .register _ _ _ => true
  | _ => false

/-- A CA call of the authorization or issuance flow: `Authorize`, `Accept`,
`WaitAuthorization` or `CreateCert`. -/
def Event.isIssuanceCall : Event → Bool
  | .authorize _ _ _ => true
  | .accept _ _ _ => true
  | .waitAuthorization _ _ _ => true
  | .createCert _ _ _ _ => true
  | _ => false

/-- A `CreateCert` call that returned a certificate chain. -/
def Event.isCreateCertOk : Event → Bool
  | .createCert _ _ _ (.ok _) => true
  | _ => false

/-- An account-setup event: key generation or a `Register` call. -/
def Event.isAccountSetup : Event → Bool
  | .register _ _ _ => true
  | .generateKey _ => true
  | _ => false

/-- An event of `authz`. -/
def Event.isAuthz : Event → Bool
  | .authorize _ _ _ => true
  | .accept _ _ _ => true
  | .waitAuthorization _ _ _ => true
  | .listenOpen _ => true
  | .listenClose _ => true
  | .serve _ _ _ => true
  | _ => false

/-- Drop the value of a result. -/
def Res.void {α : Type} : Res α → Res Unit
  | .ok _ => .ok ()
  | .err e => .err e
  | .panic msg => .panic msg

/-- The documented location of the account record, `webs/<domain>/account.json`,
which is also where `writeAccountConfig` writes it. -/
def accountJsonPath (domain : String) : String :=
  Join [Dir defaultConfigDir, "webs", domain, "account.json"]

/-- The location of the account key, `webs/<domain>/account.key`. -/
def accountKeyPath (domain : String) : String :=
  Join [Dir defaultConfigDir, "webs", domain, "account.key"]

/-- The location of the certificate, `webs/<domain>/<domain>.crt`. -/
def crtPath (domain : String) : String :=
  Join [defaultConfigDir, "webs", domain, domain ++ ".crt"]

/-- The location of the certificate key, `webs/<domain>/<domain>.key`. -/
def crtKeyPath (domain : String) : String :=
  Join [defaultConfigDir, "webs", domain, domain ++ ".key"]

/-- The contact list of the account record stored at the documented location,
when that file is there and decodes. -/
def storedContact (env : Env) (w : World) (domain : String) : Option (List String) :=
  match ReadFile w (accountJsonPath domain) with
  | .error _ => none
  | .ok b =>
    match env.jsonUnmarshal b with
    | .fail _ => none
    | .ok ac => some ac.Account.Contact

/-- Frame of a piece of execution from `w` to `w1`: files outside `touched` are
as before, the record grew by events satisfying `allowed`, and the listeners
and the challenge address are as before. -/
structure Frame (allowed : Event → Prop) (touched : String → Prop) (w w1 : World) : Prop where
  files : ∀ q, ¬ touched q → w1.files q = w.files q
  trace : ∃ evs, w1.trace = w.trace ++ evs ∧ ∀ e ∈ evs, allowed e
  listeners : w1.listeners = w.listeners
  serverAddress : w1.serverAddress = w.serverAddress

/-! ## A mocked environment

Used to run the model on concrete inputs.  Each armour line of a PEM block is
one tag byte, a key or certificate body is one byte, and an account record is
its strings, each closed by a zero byte. -/

/-- The tag byte for a PEM block type. -/
def mockTag (typ : String) : UInt8 :=
  if typ = rsaPrivateKey then 1
  else if typ = ecPrivateKey then 2
  else if typ = x509PublicKey then 3
  else 4

/-- The mocked `pem.Decode`. -/
def mockPemDecode : Bytes → Option Block
  | [] => none
  | t :: rest =>
    if t = 1 then some ⟨rsaPrivateKey, rest⟩
    else if t = 2 then some ⟨ecPrivateKey, rest⟩
    else if t = 3 then some ⟨x509PublicKey, rest⟩
    else if t = 4 then some ⟨"PUBLIC KEY", rest⟩
    else none

/-- The mocked key parsers: a one-byte body is the key. -/
def mockParseKey : Bytes → Reply Nat
  | [k] => .ok k.toNat
  | _ => .fail "asn1: structure error"

/-- The mocked certificate parser: a one-byte body is the not-after day. -/
def mockParseCertificate : Bytes → Reply Certificate
  | [d] => .ok ⟨(d.toNat : Int) * nsPerDay⟩
  | _ => .fail "x509: malformed certificate"

/-- The strings of a record, each closed by a zero byte. -/
def mockFields : Bytes → List Char → List String
  | [], _ => []
  | b :: rest, cur =>
    if b = 0 then String.mk cur.reverse :: mockFields rest []
    else mockFields rest (Char.ofNat b.toNat :: cur)

/-- The mocked `json.Unmarshal`. -/
def mockUnmarshal (b : Bytes) : Reply accountConfig :=
  match mockFields b [] with
  | uri :: terms :: ca :: contact => .ok ⟨⟨uri, contact, terms⟩, ca, none⟩
  | _ => .fail "unexpected end of JSON input"

/-- The mocked `json.MarshalIndent`. -/
def mockMarshal (ac : accountConfig) : Reply Bytes :=
  .ok ((ac.Account.URI :: ac.Account.AgreedTerms :: ac.CA :: ac.Account.Contact).flatMap
    (fun s => stringBytes s ++ [0]))

/-- The mocked environment: no I/O failure, a CA that registers the account as
sent, offers a dns-01 and an http-01 challenge and issues a chain of two
certificates; the clock stands at day 100. -/
def mockEnv : Env where
  pemDecode := mockPemDecode
  pemEncodeToMemory := fun b => mockTag b.type :: b.bytes
  parsePKCS1PrivateKey := mockParseKey
  parseECPrivateKey := mockParseKey
  marshalECPrivateKey := fun k => .ok [UInt8.ofNat k]
  parseCertificate := mockParseCertificate
  jsonUnmarshal := mockUnmarshal
  jsonMarshalIndent := mockMarshal
  createCertificateRequest := fun _ cn _ => .ok (stringBytes cn)
  http01ChallengeResponse := fun _ token => .ok (token ++ ".thumbprint")
  now := 100 * nsPerDay
  generateKey := fun w => .ok (7 + w.trace.length)
  mkdirAll := fun _ _ => none
  openFile := fun _ _ => none
  write := fun _ _ _ => .done
  close := fun _ _ => none
  netListen := fun _ _ => none
  register := fun _ _ acct => .ok { acct with URI := "https://ca.test/reg/1" }
  authorize := fun _ _ _ =>
    .ok ⟨"https://ca.test/authz/1", "pending",
      [⟨"dns-01", "https://ca.test/chal/1", "tok1"⟩, ⟨"http-01", "https://ca.test/chal/2", "tok2"⟩]⟩
  accept := fun _ _ chal => .ok chal
  waitAuthorization := fun _ _ uri => .ok ⟨uri, "valid", []⟩
  createCert := fun _ _ _ _ => .ok [[10], [20]]

/-- A world with no files, an empty record and no listener. -/
def emptyWorld : World where
  files := fun _ => none
  trace := []
  listeners := []
  serverAddress := defaultAddress

/-- A domain configuration with the default threshold of 21 days. -/
def mockConfig : configServerWeb where
  Email := "admin@example.com"
  Domain := "example.com"
  Disco := "https://ca.test/directory"
  Remaining := defaultRemaining
  Bundle := true

/-- The mocked encoding of an account record registered for `email`. -/
def mockAccountBytes (email : String) : Bytes :=
  stringBytes "https://ca.test/reg/1" ++ [0, 0, 0] ++ stringBytes ("mailto:" ++ email) ++ [0]

/-- A world whose certificate file holds a certificate valid until day 200,
with no account files. -/
def validCertWorld : World where
  files := fun q => if q = "webs/example.com/example.com.crt" then some (Node.file [3, 200]) else none
  trace := []
  listeners := []
  serverAddress := defaultAddress

/-- A world whose certificate file holds a certificate valid until day 110,
ten days after the mocked clock, with no account files. -/
def expiringCertWorld : World where
  files := fun q => if q = "webs/example.com/example.com.crt" then some (Node.file [3, 110]) else none
  trace := []
  listeners := []
  serverAddress := defaultAddress

/-- A world with an account record for admin@example.com at the documented
location `webs/example.com/account.json` and an EC account key next to it. -/
def storedAccountWorld : World where
  files := fun q =>
    if q = "webs/example.com/account.json" then some (Node.file (mockAccountBytes "admin@example.com"))
    else if q = "webs/example.com/account.key" then some (Node.file [2, 7])
    else none
  trace := []
  listeners := []
  serverAddress := defaultAddress

/-- A world with an account record for old@example.com at the location
`readAccountConfig` reads, `example.com/account.json`, and an EC account key at
`webs/example.com/account.key`. -/
def oldAccountWorld : World where
  files := fun q =>
    if q = "example.com/account.json" then some (Node.file (mockAccountBytes "old@example.com"))
    else if q = "webs/example.com/account.key" then some (Node.file [2, 7])
    else none
  trace := []
  listeners := []
  serverAddress := defaultAddress

/-- A world with an account record without contacts at the location
`readAccountConfig` reads, and an EC account key. -/
def emptyContactWorld : World where
  files := fun q =>
    if q = "example.com/account.json" then some (Node.file [0, 0, 0])
    else if q = "webs/example.com/account.key" then some (Node.file [2, 7])
    else none
  trace := []
  listeners := []
  serverAddress := defaultAddress

/-- A world with an RSA key in the certificate key file. -/
def rsaKeyWorld : World where
  files := fun q => if q = "webs/example.com/example.com.key" then some (Node.file [1, 5]) else none
  trace := []
  listeners := []
  serverAddress := defaultAddress

/-- The mocked environment with a CA that answers a registration with an
account that lists no contact. -/
def silentCAEnv : Env :=
  { mockEnv with register := fun _ _ _ => .ok ⟨"https://ca.test/reg/1", [], ""⟩ }

/-- The mocked environment with a disk that accepts no byte for the
certificate file. -/
def diskFullEnv : Env :=
  { mockEnv with
    write := fun _ path _ =>
      if path = "webs/example.com/example.com.crt" then .short 0 "no space left on device"
      else .done }

/-- The mocked environment with a CA that refuses to issue. -/
def rateLimitedEnv : Env :=
  { mockEnv with createCert := fun _ _ _ _ => .fail "urn:acme:error:rateLimited" }

end Acmed

namespace Acmed

/-! ## Paths -/

theorem splitSlash_snoc (s : List Char) (c : Char) (hc : c ≠ '/') :
    ∃ init e, splitSlash (s ++ [c]) = init ++ [e ++ [c]] := by
  induction s with
  | nil => exact ⟨[], [], by simp [splitSlash, hc]⟩
  | cons a s ih =>
    obtain ⟨init, e, h⟩ := ih
    by_cases ha : a = '/'
    · exact ⟨[] :: init, e, by simp [splitSlash, ha, h]⟩
    · cases init with
      | nil => exact ⟨[], a :: e, by simp [splitSlash, ha, h]⟩
      | cons x xs => exact ⟨(a :: x) :: xs, e, by simp [splitSlash, ha, h]⟩

theorem intercalate_cons_cons (sep x y : List Char) (l : List (List Char)) :
    List.intercalate sep (x :: y :: l) = x ++ sep ++ List.intercalate sep (y :: l) := by
  simp [List.intercalate, List.intersperse]

theorem intercalate_snoc (sep : List Char) (xs : List (List Char)) (y : List Char) (c : Char) :
    ∃ t, List.intercalate sep (xs ++ [y ++ [c]]) = t ++ [c] := by
  induction xs with
  | nil => exact ⟨y, by simp [List.intercalate, List.intersperse]⟩
  | cons x xs ih =>
    obtain ⟨t, ht⟩ := ih
    cases xs with
    | nil =>
      exact ⟨x ++ sep ++ y, by simp [List.intercalate, List.intersperse]⟩
    | cons x2 xs2 =>
      refine ⟨x ++ sep ++ t, ?_⟩
      rw [List.cons_append, List.cons_append, intercalate_cons_cons, ← List.cons_append, ht]
      simp

theorem cleanStep_name (r : Bool) (out : List (List Char)) (e : List Char) (c : Char)
    (hd : c ≠ '.') : cleanStep r out (e ++ [c]) = (e ++ [c]) :: out := by
  have h1 : e ++ [c] ≠ [] := by simp
  have h2 : e ++ [c] ≠ ['.'] := by
    intro h
    have := congrArg List.getLast? h
    simp at this
    exact hd this
  have h3 : e ++ [c] ≠ ['.', '.'] := by
    intro h
    have := congrArg List.getLast? h
    simp at this
    exact hd this
  simp [cleanStep, h1, h2, h3]

theorem Clean_snoc (s : List Char) (c : Char) (hc : c ≠ '/') (hd : c ≠ '.') :
    ∃ t, (Clean (String.mk (s ++ [c]))).data = t ++ [c] := by
  obtain ⟨init, e, hsplit⟩ := splitSlash_snoc s c hc
  unfold Clean
  have hne : s ++ [c] ≠ [] := by simp
  simp only [hne, if_false, hsplit]
  generalize ((s ++ [c]).head? == some '/') = r
  simp only [List.foldl_append, List.foldl_cons, List.foldl_nil, cleanStep_name r _ e c hd,
    List.reverse_cons]
  obtain ⟨t, ht⟩ := intercalate_snoc ['/'] (List.foldl (cleanStep r) [] init).reverse e c
  split_ifs with h1 h2
  · exact ⟨'/' :: t, by simp [ht]⟩
  · simp at h2
  · exact ⟨t, by simp [ht]⟩

theorem dropWhile_snoc (p : String → Bool) (pre : List String) (x : String) (hx : p x = false) :
    ∃ pre2, (pre ++ [x]).dropWhile p = pre2 ++ [x] := by
  induction pre with
  | nil => exact ⟨[], by simp [List.dropWhile, hx]⟩
  | cons a pre ih =>
    obtain ⟨pre2, h⟩ := ih
    by_cases ha : p a = true
    · exact ⟨pre2, by simp [List.dropWhile, ha, h]⟩
    · exact ⟨a :: pre, by simp [List.dropWhile, ha]⟩

/-- The last character of a joined path is the last character of its last
element, when that is neither a separator nor a dot. -/
theorem Join_snoc (pre : List String) (s : List Char) (c : Char) (hc : c ≠ '/') (hd : c ≠ '.') :
    ∃ t, (Join (pre ++ [String.mk (s ++ [c])])).data = t ++ [c] := by
  obtain ⟨pre2, h⟩ := dropWhile_snoc (fun e => e.data.isEmpty) pre (String.mk (s ++ [c])) (by simp)
  unfold Join
  rw [h]
  obtain ⟨t, ht⟩ := intercalate_snoc ['/'] (pre2.map String.data) s c
  have : (pre2 ++ [String.mk (s ++ [c])]).map String.data = pre2.map String.data ++ [s ++ [c]] := by
    simp
  cases hp : pre2 ++ [String.mk (s ++ [c])] with
  | nil => simp at hp
  | cons a as =>
    simp only
    rw [← hp, this, ht]
    exact Clean_snoc t c hc hd

theorem snoc_ne_snoc (t1 t2 : List Char) (a b : Char) (h : a ≠ b) : t1 ++ [a] ≠ t2 ++ [b] := by
  intro he
  have := congrArg List.getLast? he
  simp at this
  exact h this

theorem crtPath_last (d : String) : ∃ t, (crtPath d).data = t ++ ['t'] := by
  have h : d ++ ".crt" = String.mk ((d.data ++ ['.', 'c', 'r']) ++ ['t']) := by
    apply String.ext; simp
  unfold crtPath
  rw [h]
  exact Join_snoc [defaultConfigDir, "webs", d] _ 't' (by decide) (by decide)

theorem crtKeyPath_last (d : String) : ∃ t, (crtKeyPath d).data = t ++ ['y'] := by
  have h : d ++ ".key" = String.mk ((d.data ++ ['.', 'k', 'e']) ++ ['y']) := by
    apply String.ext; simp
  unfold crtKeyPath
  rw [h]
  exact Join_snoc [defaultConfigDir, "webs", d] _ 'y' (by decide) (by decide)

theorem accountKeyPath_last (d : String) : ∃ t, (accountKeyPath d).data = t ++ ['y'] := by
  have h : "account.key" = String.mk ("account.ke".data ++ ['y']) := by decide
  unfold accountKeyPath
  rw [h]
  exact Join_snoc [Dir defaultConfigDir, "webs", d] _ 'y' (by decide) (by decide)

theorem accountJsonPath_last (d : String) : ∃ t, (accountJsonPath d).data = t ++ ['n'] := by
  have h : "account.json" = String.mk ("account.jso".data ++ ['n']) := by decide
  unfold accountJsonPath
  rw [h]
  exact Join_snoc [Dir defaultConfigDir, "webs", d] _ 'n' (by decide) (by decide)

theorem crtPath_ne_accountKeyPath (d : String) : crtPath d ≠ accountKeyPath d := by
  intro h
  obtain ⟨t1, h1⟩ := crtPath_last d
  obtain ⟨t2, h2⟩ := accountKeyPath_last d
  rw [h, h2] at h1
  exact snoc_ne_snoc t2 t1 'y' 't' (by decide) h1

theorem crtPath_ne_accountJsonPath (d : String) : crtPath d ≠ accountJsonPath d := by
  intro h
  obtain ⟨t1, h1⟩ := crtPath_last d
  obtain ⟨t2, h2⟩ := accountJsonPath_last d
  rw [h, h2] at h1
  exact snoc_ne_snoc t2 t1 'n' 't' (by decide) h1

theorem crtPath_ne_crtKeyPath (d : String) : crtPath d ≠ crtKeyPath d := by
  intro h
  obtain ⟨t1, h1⟩ := crtPath_last d
  obtain ⟨t2, h2⟩ := crtKeyPath_last d
  rw [h, h2] at h1
  exact snoc_ne_snoc t2 t1 'y' 't' (by decide) h1

/-! ## Frames -/

theorem newEvents_append (w w1 : World) (evs : List Event) (h : w1.trace = w.trace ++ evs) :
    newEvents w w1 = evs := by
  simp [newEvents, h]

theorem Frame.refl (P : Event → Prop) (T : String → Prop) (w : World) : Frame P T w w :=
  ⟨fun _ _ => rfl, ⟨[], by simp⟩, rfl, rfl⟩

theorem Frame.trans {P : Event → Prop} {T : String → Prop} {w w1 w2 : World}
    (h1 : Frame P T w w1) (h2 : Frame P T w1 w2) : Frame P T w w2 := by
  obtain ⟨e1, ht1, hp1⟩ := h1.trace
  obtain ⟨e2, ht2, hp2⟩ := h2.trace
  refine ⟨fun q hq => by rw [h2.files q hq, h1.files q hq], ⟨e1 ++ e2, ?_, ?_⟩, ?_, ?_⟩
  · rw [ht2, ht1, List.append_assoc]
  · intro e he
    rcases List.mem_append.mp he with h | h
    · exact hp1 e h
    · exact hp2 e h
  · rw [h2.listeners, h1.listeners]
  · rw [h2.serverAddress, h1.serverAddress]

theorem Frame.setFile (P : Event → Prop) {T : String → Prop} (w : World) {path : String}
    (data : Bytes) (hT : T path) : Frame P T w (w.setFile path data) := by
  refine ⟨fun q hq => ?_, ⟨[], by simp [World.setFile]⟩, rfl, rfl⟩
  have : q ≠ path := fun h => hq (h ▸ hT)
  simp [World.setFile, this]

theorem Frame.log {P : Event → Prop} (T : String → Prop) (w : World) {e : Event} (hP : P e) :
    Frame P T w (w.log e) :=
  ⟨fun _ _ => rfl, ⟨[e], rfl, by simpa using hP⟩, rfl, rfl⟩

theorem WriteFile_frame (P : Event → Prop) {T : String → Prop} (env : Env) {path : String}
    (data : Bytes) (w : World) (hT : T path) : Frame P T w (WriteFile env path data w).2 := by
  unfold WriteFile
  split
  · exact Frame.refl P T w
  · have f1 := Frame.setFile P w [] hT
    dsimp only
    split
    · exact f1.trans (Frame.setFile P _ _ hT)
    · have f2 := f1.trans (Frame.setFile P _ data hT)
      split <;> exact f2

theorem writeKey_frame (P : Event → Prop) {T : String → Prop} (env : Env) {path : String}
    (k : Nat) (w : World) (hT : T path) : Frame P T w (writeKey env path k w).2 := by
  unfold writeKey
  split
  · exact Frame.refl P T w
  · split
    · exact Frame.refl P T w
    · have f1 := Frame.setFile P w [] hT
      dsimp only
      split
      · exact f1
      · split
        · exact f1.trans (Frame.setFile P _ _ hT)
        · split <;> exact f1.trans (Frame.setFile P _ _ hT)

theorem anyKey_frame {P : Event → Prop} {T : String → Prop} (env : Env) {filename : String}
    (gen : Bool) (w : World) (hT : T filename) (hP : ∀ r, P (.generateKey r)) :
    Frame P T w (anyKey env filename gen w).2 := by
  unfold anyKey
  split
  · exact Frame.refl P T w
  · split
    · exact Frame.refl P T w
    · have f1 : Frame P T w (w.log (.generateKey (env.generateKey w))) := Frame.log T w (hP _)
      dsimp only
      split
      · exact f1
      · rename_i ecKey _
        have f2 := f1.trans (writeKey_frame P env ecKey _ hT)
        split
        · rename_i h; rw [h] at f2; exact f2
        · rename_i h; rw [h] at f2; exact f2

theorem writeAccountConfig_frame (P : Event → Prop) {T : String → Prop} (env : Env)
    (domain : String) (ac : accountConfig) (w : World) (hT : T (accountJsonPath domain)) :
    Frame P T w (writeAccountConfig env domain ac w).2 := by
  unfold writeAccountConfig
  split
  · exact Frame.refl P T w
  · split
    · exact Frame.refl P T w
    · exact WriteFile_frame P env _ w hT

theorem registerAccount_frame {P : Event → Prop} {T : String → Prop} (env : Env)
    (c : configServerWeb) (w : World) (hK : T (accountKeyPath c.Domain))
    (hJ : T (accountJsonPath c.Domain)) (hP : ∀ e, e.isAccountSetup = true → P e) :
    Frame P T w (registerAccount env c w).2 := by
  unfold registerAccount
  split
  · exact Frame.refl P T w
  · have f1 : Frame P T w
        (anyKey env (Join [Dir defaultConfigDir, "webs", c.Domain, "account.key"]) true w).2 :=
      anyKey_frame env true w hK (fun r => hP _ rfl)
    split
    · rename_i h; rw [h] at f1; exact f1
    · rename_i key w1 h
      rw [h] at f1
      have f2 := f1.trans (Frame.log T w1 (hP (.register ⟨some key, c.Disco⟩
        ⟨"", ["mailto:" ++ c.Email], ""⟩ (env.register w1 ⟨some key, c.Disco⟩
          ⟨"", ["mailto:" ++ c.Email], ""⟩)) rfl))
      dsimp only
      split
      · exact f2
      · rename_i a _
        have f3 := f2.trans (writeAccountConfig_frame P env c.Domain ⟨a, "", some key⟩ _ hJ)
        split
        · rename_i h3; rw [h3] at f3; exact f3
        · rename_i h3; rw [h3] at f3; exact f3

theorem generateAccountConfig_frame {P : Event → Prop} {T : String → Prop} (env : Env)
    (c : configServerWeb) (w : World) (hK : T (accountKeyPath c.Domain))
    (hJ : T (accountJsonPath c.Domain)) (hP : ∀ e, e.isAccountSetup = true → P e) :
    Frame P T w (generateAccountConfig env c w).2 := by
  have f := registerAccount_frame env c w hK hJ hP
  unfold generateAccountConfig
  split
  · split
    · split
      · exact Frame.refl P T w
      · split
        · exact Frame.refl P T w
        · exact f
    · exact f
  · exact f

/-! ## authz -/

/-- An event of the code that runs while the listener is open. -/
theorem answerChallenge_frame (env : Env) (client : Client) (z : Authorization) (chal : Challenge)
    (addr : String) (w : World) :
    Frame (fun e => e.isAuthz = true ∧ ∀ a, e ≠ .listenOpen a ∧ e ≠ .listenClose a)
      (fun _ => False) w (answerChallenge env client z chal addr w).2 := by
  unfold answerChallenge
  split
  · exact Frame.refl _ _ w
  · rename_i val _
    have f1 : Frame (fun e => e.isAuthz = true ∧ ∀ a, e ≠ .listenOpen a ∧ e ≠ .listenClose a)
        (fun _ => False) w (w.log (.serve addr (HTTP01ChallengePath chal.Token) val)) :=
      Frame.log _ w ⟨rfl, fun a => ⟨by simp, by simp⟩⟩
    have f2 := f1.trans (Frame.log (fun _ => False) _
      (e := .accept client chal
        (env.accept (w.log (.serve addr (HTTP01ChallengePath chal.Token) val)) client chal))
      ⟨rfl, fun a => ⟨by simp, by simp⟩⟩)
    dsimp only
    split
    · exact f2
    · have f3 := f2.trans (Frame.log (fun _ => False) _
        (e := .waitAuthorization client z.URI (env.waitAuthorization
          ((w.log (.serve addr (HTTP01ChallengePath chal.Token) val)).log (.accept client chal
            (env.accept (w.log (.serve addr (HTTP01ChallengePath chal.Token) val)) client chal)))
          client z.URI))
        ⟨rfl, fun a => ⟨by simp, by simp⟩⟩)
      split <;> exact f3

/-- What `authz` leaves behind: files, listeners and address as before, and a
record that grew either by the `Authorize` call alone or by `Authorize`, the
opening of the listener, the events of the challenge and the closing of the
listener. -/
theorem authz_shape (env : Env) (client : Client) (domain : String) (w : World) :
    (authz env client domain w).2.files = w.files ∧
    (authz env client domain w).2.listeners = w.listeners ∧
    (authz env client domain w).2.serverAddress = w.serverAddress ∧
    ((authz env client domain w).2.trace =
        w.trace ++ [.authorize client domain (env.authorize w client domain)] ∨
      ∃ z chal mid, env.authorize w client domain = .ok z ∧ z.Status ≠ StatusValid ∧
        z.Challenges.find? (fun c => c.type == "http-01") = some chal ∧
        (authz env client domain w).2.trace =
          w.trace ++ (.authorize client domain (.ok z) :: .listenOpen w.serverAddress ::
            (mid ++ [.listenClose w.serverAddress])) ∧
        ∀ e ∈ mid, e.isAuthz = true ∧ ∀ a, e ≠ .listenOpen a ∧ e ≠ .listenClose a) := by
  unfold authz
  dsimp only
  cases hz : env.authorize w client domain with
  | fail msg => exact ⟨rfl, rfl, rfl, Or.inl rfl⟩
  | ok z =>
    dsimp only
    split
    · exact ⟨rfl, rfl, rfl, Or.inl rfl⟩
    · rename_i hv
      split
      · exact ⟨rfl, rfl, rfl, Or.inl rfl⟩
      · rename_i chal hc
        split
        · exact ⟨rfl, rfl, rfl, Or.inl rfl⟩
        · have f := answerChallenge_frame env client z chal
            (w.log (.authorize client domain (.ok z))).serverAddress
            (((w.log (.authorize client domain (.ok z))).log (.listenOpen
              (w.log (.authorize client domain (.ok z))).serverAddress)).openListener
              (w.log (.authorize client domain (.ok z))).serverAddress)
          obtain ⟨mid, hmid, hP⟩ := f.trace
          have hfl := f.listeners
          have hfa := f.serverAddress
          refine ⟨?_, ?_, ?_, Or.inr ⟨z, chal, mid, rfl, hv, hc, ?_, hP⟩⟩
          · funext q
            simpa [World.closeListener, World.log, World.openListener] using f.files q (fun h => h)
          · simp only [World.closeListener, World.log, World.openListener] at hfl ⊢
            rw [hfl]
            simp
          · simp only [World.closeListener, World.log, World.openListener] at hfa ⊢
            rw [hfa]
          · simp only [World.closeListener, World.log, World.openListener] at hmid ⊢
            rw [hmid]
            simp

theorem authz_frame {P : Event → Prop} (T : String → Prop) (env : Env) (client : Client)
    (domain : String) (w : World) (hP : ∀ e, e.isAuthz = true → P e) :
    Frame P T w (authz env client domain w).2 := by
  obtain ⟨hf, hl, ha, ht⟩ := authz_shape env client domain w
  refine ⟨fun q _ => by rw [hf], ?_, hl, ha⟩
  rcases ht with h | ⟨z, chal, mid, _, _, _, h, hmid⟩
  · exact ⟨_, h, by intro e he; simp at he; subst he; exact hP _ rfl⟩
  · refine ⟨_, h, ?_⟩
    intro e he
    simp only [List.mem_cons, List.mem_append, List.mem_singleton, List.not_mem_nil, or_false] at he
    rcases he with rfl | rfl | he | rfl
    · exact hP _ rfl
    · exact hP _ rfl
    · exact hP _ (hmid e he).1
    · exact hP _ rfl

/-! ## Issuance -/

theorem WriteFile_trace (env : Env) (path : String) (data : Bytes) (w : World) :
    (WriteFile env path data w).2.trace = w.trace := by
  unfold WriteFile
  split
  · rfl
  · dsimp only
    split
    · rfl
    · split <;> rfl

theorem WriteFile_ok (env : Env) (path : String) (data : Bytes) (w : World)
    (h : (WriteFile env path data w).1 = none) :
    (WriteFile env path data w).2.files path = some (Node.file data) := by
  unfold WriteFile at h ⊢
  cases ho : env.openFile w path with
  | some msg => simp [ho] at h
  | none =>
    simp only [ho] at h ⊢
    cases hw : env.write (w.setFile path []) path data with
    | short n msg => simp [hw] at h
    | done =>
      simp only [hw] at h ⊢
      cases hc : env.close ((w.setFile path []).setFile path data) path with
      | some msg => simp [hc] at h
      | none => simp [World.setFile]

/-- The three ways `issueCert` can end: before `CreateCert` replied, after a
failed `CreateCert`, or in the final write after `CreateCert` returned a chain. -/
theorem issueCert_shape (env : Env) (c : configServerWeb) (ac : accountConfig) (w : World) :
    ∃ w3, Frame (fun e => e.isCreateCertOk = false) (fun q => q = crtKeyPath c.Domain) w w3 ∧
      (((issueCert env c ac w).2 = w3 ∧ (issueCert env c ac w).1 ≠ .ok ()) ∨
       (∃ client csr msg,
          (issueCert env c ac w).2 = w3.log (.createCert client csr c.Bundle (.fail msg)) ∧
          (issueCert env c ac w).1 ≠ .ok ()) ∨
       (∃ client csr cert,
          (issueCert env c ac w).2 =
            (WriteFile env (crtPath c.Domain) (encodeChain env cert)
              (w3.log (.createCert client csr c.Bundle (.ok cert)))).2 ∧
          ((issueCert env c ac w).1 = .ok () →
            (WriteFile env (crtPath c.Domain) (encodeChain env cert)
              (w3.log (.createCert client csr c.Bundle (.ok cert)))).1 = none))) := by
  have fk : Frame (fun e => e.isCreateCertOk = false) (fun q => q = crtKeyPath c.Domain) w
      (anyKey env (crtKeyPath c.Domain) true w).2 :=
    anyKey_frame env true w rfl (fun _ => rfl)
  unfold issueCert
  change Frame _ _ w (anyKey env (Join [defaultConfigDir, "webs", c.Domain, c.Domain ++ ".key"])
    true w).2 at fk
  cases hk : anyKey env (Join [defaultConfigDir, "webs", c.Domain, c.Domain ++ ".key"]) true w with
  | mk r w2 =>
    rw [hk] at fk
    cases r with
    | error e => exact ⟨w2, fk, Or.inl ⟨rfl, by simp⟩⟩
    | ok crtKey =>
      dsimp only
      cases hcsr : env.createCertificateRequest w2 c.Domain crtKey with
      | fail msg => exact ⟨w2, fk, Or.inl ⟨rfl, by simp⟩⟩
      | ok csr =>
        dsimp only
        have fa : Frame (fun e => e.isCreateCertOk = false) (fun q => q = crtKeyPath c.Domain) w2
            (authz env ⟨ac.key, c.Disco⟩ c.Domain w2).2 :=
          authz_frame _ env _ c.Domain w2 (fun e he => by cases e <;> simp_all [Event.isAuthz, Event.isCreateCertOk])
        cases ha : authz env ⟨ac.key, c.Disco⟩ c.Domain w2 with
        | mk ra w3 =>
          rw [ha] at fa
          have f3 := fk.trans fa
          cases ra with
          | some e => exact ⟨w3, f3, Or.inl ⟨rfl, by simp⟩⟩
          | none =>
            dsimp only
            cases hcc : env.createCert w3 ⟨ac.key, c.Disco⟩ csr c.Bundle with
            | fail msg => exact ⟨w3, f3, Or.inr (Or.inl ⟨_, csr, msg, rfl, by simp⟩)⟩
            | ok cert =>
              dsimp only
              refine ⟨w3, f3, Or.inr (Or.inr ⟨⟨ac.key, c.Disco⟩, csr, cert, ?_, ?_⟩)⟩
              · split <;> (rename_i h; simp [crtPath, h])
              · split
                · simp
                · rename_i h; intro _; simp [crtPath, h]

theorem issueCert_no_chain (env : Env) (c : configServerWeb) (ac : accountConfig) (w : World)
    (h : ∀ e ∈ newEvents w (issueCert env c ac w).2, e.isCreateCertOk = false) :
    (issueCert env c ac w).2.files (crtPath c.Domain) = w.files (crtPath c.Domain) := by
  obtain ⟨w3, f, hs⟩ := issueCert_shape env c ac w
  obtain ⟨evs, ht, _⟩ := f.trace
  have hf := f.files (crtPath c.Domain) (crtPath_ne_crtKeyPath c.Domain)
  rcases hs with ⟨h2, _⟩ | ⟨client, csr, msg, h2, _⟩ | ⟨client, csr, cert, h2, _⟩
  · rw [h2, hf]
  · rw [h2]; exact hf
  · exfalso
    have htr : (issueCert env c ac w).2.trace =
        w.trace ++ (evs ++ [.createCert client csr c.Bundle (.ok cert)]) := by
      rw [h2, WriteFile_trace]
      simp [World.log, ht]
    have := h (.createCert client csr c.Bundle (.ok cert))
      (by rw [newEvents_append _ _ _ htr]; simp)
    simp [Event.isCreateCertOk] at this

theorem issueCert_ok (env : Env) (c : configServerWeb) (ac : accountConfig) (w : World)
    (h : (issueCert env c ac w).1 = .ok ()) :
    ∃ pre client csr cert,
      newEvents w (issueCert env c ac w).2 = pre ++ [.createCert client csr c.Bundle (.ok cert)] ∧
      (∀ e ∈ pre, e.isCreateCertOk = false) ∧
      (issueCert env c ac w).2.files (crtPath c.Domain) = some (Node.file (encodeChain env cert)) := by
  obtain ⟨w3, f, hs⟩ := issueCert_shape env c ac w
  obtain ⟨evs, ht, hP⟩ := f.trace
  rcases hs with ⟨_, h2⟩ | ⟨_, _, _, _, h2⟩ | ⟨client, csr, cert, h2, h3⟩
  · exact absurd h h2
  · exact absurd h h2
  · refine ⟨evs, client, csr, cert, ?_, hP, ?_⟩
    · apply newEvents_append
      rw [h2, WriteFile_trace]
      simp [World.log, ht]
    · rw [h2]
      exact WriteFile_ok _ _ _ _ (h3 h)

/-! ## The renewal check -/

theorem remainingDuration_small (R : Nat) (h : R ≤ 106751) :
    remainingDuration R = (R : Int) * nsPerDay := by
  unfold remainingDuration Duration.mul toInt64 Hour nsPerDay
  omega

theorem remainingDuration_bound (R : Nat) :
    remainingDuration R < maxDuration ∧ minDuration ≤ remainingDuration R := by
  unfold remainingDuration Duration.mul toInt64 Hour maxDuration minDuration
  omega

/-- A certificate with more than `R` days left passes the check, for every
`R`: a wrapped threshold is even and so below the largest duration. -/
theorem stillValid_of_gt (T now : Int) (R : Nat) (h : T - now > (R : Int) * nsPerDay) :
    stillValid T now R = true := by
  have hb := remainingDuration_bound R
  unfold stillValid Time.Sub
  simp only [decide_eq_true_eq]
  by_cases hs : R ≤ 106751
  · rw [remainingDuration_small R hs]
    unfold maxDuration minDuration nsPerDay at *
    split_ifs <;> omega
  · have : (R : Int) * nsPerDay > maxDuration := by
      unfold nsPerDay maxDuration; omega
    unfold maxDuration minDuration nsPerDay at *
    split_ifs <;> omega

/-- C2, as stated, fails: with a threshold of 106752 days the product
`Duration(R)*24*Hour` wraps to a negative duration, and a certificate with one
day left (not more than 106752 days) passes the check and is not renewed. -/
theorem stillValid_threshold_wraps :
    remainingDuration 106752 = -9223371273709551616 ∧
    stillValid (101 * nsPerDay) (100 * nsPerDay) 106752 = true ∧
    ¬ (101 * nsPerDay - 100 * nsPerDay > ((106752 : Nat) : Int) * nsPerDay) := by
  decide

/-- C2, amended: for every not-after time `T`, every current time `now` and
every threshold `R` of at most 106751 days (the largest number of days a
duration holds), the renewal check skips renewal if and only if
`T - now > R days`; when `T - now` is exactly `R` days it does not skip. -/
theorem stillValid_iff (T now : Int) (R : Nat) (hR : R ≤ 106751) :
    (stillValid T now R = true ↔ T - now > (R : Int) * nsPerDay) ∧
    (T - now = (R : Int) * nsPerDay → stillValid T now R = false) := by
  have key : stillValid T now R = true ↔ T - now > (R : Int) * nsPerDay := by
    unfold stillValid Time.Sub
    rw [remainingDuration_small R hR]
    simp only [decide_eq_true_eq]
    unfold maxDuration minDuration nsPerDay
    split_ifs <;> omega
  refine ⟨key, fun h => ?_⟩
  cases hv : stillValid T now R with
  | false => rfl
  | true => have := key.mp hv; omega

theorem stillValid_iff_witness :
    (21 : Nat) ≤ 106751 ∧
    ((stillValid (121 * nsPerDay) (100 * nsPerDay) 21 = true ↔
        121 * nsPerDay - 100 * nsPerDay > ((21 : Nat) : Int) * nsPerDay) ∧
      (121 * nsPerDay - 100 * nsPerDay = ((21 : Nat) : Int) * nsPerDay →
        stillValid (121 * nsPerDay) (100 * nsPerDay) 21 = false)) :=
  ⟨by decide, stillValid_iff (121 * nsPerDay) (100 * nsPerDay) 21 (by decide)⟩

/-! ## The challenge responder -/

theorem stringBytes_eq_nil (v : String) (h : stringBytes v = []) : v = "" := by
  unfold stringBytes at h
  cases hv : v.data with
  | nil => exact String.ext hv
  | cons c cs =>
    rw [hv] at h
    simp only [List.flatMap_cons, List.append_eq_nil] at h
    have := congrArg List.length h.1
    rw [String.length_utf8EncodeChar] at this
    have hp := Char.utf8Size_pos c
    simp at this
    omega

/-- C7: for every registered path `p` and value `v`, the handler answers a
request whose URL path is `p` with status 200 and exactly the bytes of `v` as
body, and a request with any other URL path with status 404 and an empty body,
which does not contain `v` unless `v` is itself empty. -/
theorem http01Handler_response (p v : String) (r : Request) :
    (r.URLPath = p ∧
      (http01Handler p v ResponseRecorder.fresh r).code = 200 ∧
      (http01Handler p v ResponseRecorder.fresh r).body = stringBytes v) ∨
    (r.URLPath ≠ p ∧
      (http01Handler p v ResponseRecorder.fresh r).code = 404 ∧
      (http01Handler p v ResponseRecorder.fresh r).body = [] ∧
      (v = "" ∨ ∀ s t, (http01Handler p v ResponseRecorder.fresh r).body ≠ s ++ stringBytes v ++ t)) := by
  by_cases h : r.URLPath = p
  · left
    simp [http01Handler, h, ResponseRecorder.Write, ResponseRecorder.WriteHeader,
      ResponseRecorder.fresh]
  · right
    refine ⟨h, ?_, ?_, ?_⟩
    · simp [http01Handler, h, ResponseRecorder.WriteHeader, ResponseRecorder.fresh]
    · simp [http01Handler, h, ResponseRecorder.WriteHeader, ResponseRecorder.fresh]
    · by_cases hv : v = ""
      · exact Or.inl hv
      · right
        intro s t hb
        have hbody : (http01Handler p v ResponseRecorder.fresh r).body = [] := by
          simp [http01Handler, h, ResponseRecorder.WriteHeader, ResponseRecorder.fresh]
        rw [hbody] at hb
        have h2 := hb.symm
        simp only [List.append_eq_nil] at h2
        exact hv (stringBytes_eq_nil v h2.1.2)

theorem http01Handler_response_witness :
    (http01Handler "/.well-known/acme-challenge/tok2" "tok2.thumbprint" ResponseRecorder.fresh
        ⟨"GET", "/.well-known/acme-challenge/tok2"⟩).body = stringBytes "tok2.thumbprint" ∧
    (http01Handler "/.well-known/acme-challenge/tok2" "tok2.thumbprint" ResponseRecorder.fresh
        ⟨"GET", "/index.html"⟩).code = 404 := by
  constructor
  · rcases http01Handler_response "/.well-known/acme-challenge/tok2" "tok2.thumbprint"
      ⟨"GET", "/.well-known/acme-challenge/tok2"⟩ with h | h
    · exact h.2.2
    · exact absurd rfl h.1
  · rcases http01Handler_response "/.well-known/acme-challenge/tok2" "tok2.thumbprint"
      ⟨"GET", "/index.html"⟩ with h | h
    · exact absurd h.1 (by decide)
    · exact h.2.1

/-! ## The key store -/

theorem readKey_not_notExist (env : Env) (path : String) (w : World) (node : Node)
    (h : w.files path = some node) (e : Error) (he : readKey env path w = .error e) :
    e.isNotExist = false := by
  unfold readKey ReadFile at he
  rw [h] at he
  cases node with
  | unreadable =>
    simp only [Except.error.injEq] at he
    subst he; rfl
  | file b =>
    dsimp only at he
    split at he
    · simp only [Except.error.injEq] at he
      subst he; rfl
    · split at he
      · split at he
        · simp at he
        · simp only [Except.error.injEq] at he
          subst he; rfl
      · split at he
        · split at he
          · simp at he
          · simp only [Except.error.injEq] at he
            subst he; rfl
        · simp only [Except.error.injEq] at he
          subst he; rfl

theorem anyKey_of_existing (env : Env) (path : String) (w : World) (node : Node)
    (h : w.files path = some node) : anyKey env path true w = (readKey env path w, w) := by
  unfold anyKey
  cases hr : readKey env path w with
  | ok k => rfl
  | error e =>
    have := readKey_not_notExist env path w node h e hr
    simp [this]

/-- C6: when something exists at `path` (a file holding an RSA key, an EC key,
another PEM block, no PEM block, or an entry that cannot be read),
`anyKey path true` returns what `readKey` returns and leaves the world, file
system and record included, as it was: the decoded key for an RSA or EC block
that parses, the read or decode error otherwise, and no key is generated.  A
key is generated, or any file changed, only when nothing exists at `path`. -/
theorem anyKey_existing_file (env : Env) (path : String) (w : World) :
    (∀ node, w.files path = some node →
      anyKey env path true w = (readKey env path w, w) ∧
      (∀ b d k, node = Node.file b → env.pemDecode b = some d → d.type = rsaPrivateKey →
        env.parsePKCS1PrivateKey d.bytes = .ok k → readKey env path w = .ok (Signer.rsa k)) ∧
      (∀ b d k, node = Node.file b → env.pemDecode b = some d → d.type = ecPrivateKey →
        env.parseECPrivateKey d.bytes = .ok k → readKey env path w = .ok (Signer.ecdsa k)) ∧
      (∀ b d, node = Node.file b → env.pemDecode b = some d → d.type ≠ rsaPrivateKey →
        d.type ≠ ecPrivateKey → readKey env path w = .error (.unsupported d.type)) ∧
      (∀ b, node = Node.file b → env.pemDecode b = none →
        readKey env path w = .error (.noBlock path)) ∧
      (node = Node.unreadable → readKey env path w = .error (.fs path "read"))) ∧
    (∀ r, Event.generateKey r ∈ newEvents w (anyKey env path true w).2 → w.files path = none) ∧
    (∀ q, (anyKey env path true w).2.files q ≠ w.files q → w.files path = none) := by
  refine ⟨fun node h => ⟨anyKey_of_existing env path w node h, ?_, ?_, ?_, ?_, ?_⟩, ?_, ?_⟩
  · intro b d k hn hd ht hp
    subst hn
    simp [readKey, ReadFile, h, hd, ht, hp]
  · intro b d k hn hd ht hp
    subst hn
    have hne : ecPrivateKey ≠ rsaPrivateKey := by decide
    simp [readKey, ReadFile, h, hd, ht, hp, hne]
  · intro b d hn hd h1 h2
    subst hn
    simp [readKey, ReadFile, h, hd, h1, h2]
  · intro b hn hd
    subst hn
    simp [readKey, ReadFile, h, hd]
  · intro hn
    subst hn
    simp [readKey, ReadFile, h]
  · intro r hr
    cases hf : w.files path with
    | none => rfl
    | some node =>
      rw [anyKey_of_existing env path w node hf] at hr
      simp [newEvents] at hr
  · intro q hq
    cases hf : w.files path with
    | none => rfl
    | some node =>
      rw [anyKey_of_existing env path w node hf] at hq
      exact absurd rfl hq

theorem anyKey_existing_file_witness :
    rsaKeyWorld.files "webs/example.com/example.com.key" = some (Node.file [1, 5]) ∧
    anyKey mockEnv "webs/example.com/example.com.key" true rsaKeyWorld =
      (readKey mockEnv "webs/example.com/example.com.key" rsaKeyWorld, rsaKeyWorld) ∧
    readKey mockEnv "webs/example.com/example.com.key" rsaKeyWorld = .ok (Signer.rsa 5) := by
  have h := (anyKey_existing_file mockEnv "webs/example.com/example.com.key" rsaKeyWorld).1
    (Node.file [1, 5]) (by decide)
  exact ⟨by decide, h.1, h.2.1 [1, 5] ⟨rsaPrivateKey, [5]⟩ 5 rfl (by decide) rfl (by decide)⟩

/-! ## authz and the listener -/

/-- C8: on every exit path of `authz` the listeners held after the call are
those held before it.  Either the call recorded no listener event at all, or
the authorization was not yet valid and offered an http-01 challenge, and the
record grew by the `Authorize` call, the opening of the listener, events that
are not listener events, and last the closing of that listener. -/
theorem authz_closes_listener (env : Env) (client : Client) (domain : String) (w : World) :
    (authz env client domain w).2.listeners = w.listeners ∧
    ((∀ a, Event.listenOpen a ∉ newEvents w (authz env client domain w).2 ∧
        Event.listenClose a ∉ newEvents w (authz env client domain w).2) ∨
      ∃ z chal mid, env.authorize w client domain = .ok z ∧ z.Status ≠ StatusValid ∧
        z.Challenges.find? (fun c => c.type == "http-01") = some chal ∧ chal.type = "http-01" ∧
        newEvents w (authz env client domain w).2 =
          .authorize client domain (.ok z) :: .listenOpen w.serverAddress ::
            (mid ++ [.listenClose w.serverAddress]) ∧
        ∀ e ∈ mid, ∀ a, e ≠ .listenOpen a ∧ e ≠ .listenClose a) := by
  obtain ⟨_, hl, _, ht⟩ := authz_shape env client domain w
  refine ⟨hl, ?_⟩
  rcases ht with h | ⟨z, chal, mid, hz, hv, hc, h, hmid⟩
  · left
    intro a
    rw [newEvents_append _ _ _ h]
    simp
  · right
    refine ⟨z, chal, mid, hz, hv, hc, ?_, newEvents_append _ _ _ h, fun e he => (hmid e he).2⟩
    have := List.find?_some hc
    simpa using this

/-! ## getCert -/

theorem generateAccountConfig_setup_frame (env : Env) (c : configServerWeb) (w : World) :
    Frame (fun e => e.isAccountSetup = true)
      (fun q => q = accountKeyPath c.Domain ∨ q = accountJsonPath c.Domain) w
      (generateAccountConfig env c w).2 :=
  generateAccountConfig_frame env c w (Or.inl rfl) (Or.inr rfl) (fun _ h => h)

theorem generateAccountConfig_keeps_crt (env : Env) (c : configServerWeb) (w : World) :
    (generateAccountConfig env c w).2.files (crtPath c.Domain) = w.files (crtPath c.Domain) :=
  (generateAccountConfig_setup_frame env c w).files _ (fun h => by
    rcases h with h | h
    · exact crtPath_ne_accountKeyPath _ h
    · exact crtPath_ne_accountJsonPath _ h)

/-- Either `getCert` ends where account setup ended, with its result, or
account setup succeeded and `getCert` goes on with `issueCert`. -/
theorem getCert_cases (env : Env) (c : configServerWeb) (w : World) :
    getCert env c w =
        ((generateAccountConfig env c w).1.void, (generateAccountConfig env c w).2) ∨
    ∃ ac, (generateAccountConfig env c w).1 = .ok ac ∧
      getCert env c w = issueCert env c ac (generateAccountConfig env c w).2 := by
  unfold getCert
  cases hg : generateAccountConfig env c w with
  | mk r w1 =>
    cases r with
    | panic msg => exact Or.inl rfl
    | err e => exact Or.inl rfl
    | ok ac =>
      dsimp only
      split
      · exact Or.inl rfl
      · exact Or.inr ⟨ac, rfl, rfl⟩

theorem issueCert_trace (env : Env) (c : configServerWeb) (ac : accountConfig) (w : World) :
    (issueCert env c ac w).2.trace = w.trace ++ newEvents w (issueCert env c ac w).2 := by
  obtain ⟨w3, f, hs⟩ := issueCert_shape env c ac w
  obtain ⟨evs, ht, _⟩ := f.trace
  have : ∃ l, (issueCert env c ac w).2.trace = w.trace ++ l := by
    rcases hs with ⟨h2, _⟩ | ⟨client, csr, msg, h2, _⟩ | ⟨client, csr, cert, h2, _⟩
    · exact ⟨evs, by rw [h2, ht]⟩
    · exact ⟨evs ++ [.createCert client csr c.Bundle (.fail msg)], by
        rw [h2]; simp [World.log, ht]⟩
    · exact ⟨evs ++ [.createCert client csr c.Bundle (.ok cert)], by
        rw [h2, WriteFile_trace]; simp [World.log, ht]⟩
  obtain ⟨l, hl⟩ := this
  rw [newEvents_append _ _ _ hl, hl]

theorem encodeChain_eq (env : Env) (ders : List Bytes) :
    encodeChain env ders =
      (ders.map (fun d => env.pemEncodeToMemory ⟨x509PublicKey, d⟩)).flatten := by
  have h : ∀ (acc : Bytes) (l : List Bytes),
      l.foldl (fun pemcert b => pemcert ++ env.pemEncodeToMemory ⟨x509PublicKey, b⟩) acc =
        acc ++ (l.map (fun d => env.pemEncodeToMemory ⟨x509PublicKey, d⟩)).flatten := by
    intro acc l
    induction l generalizing acc with
    | nil => simp
    | cons d l ih => simp [ih]
  simpa [encodeChain] using h [] ders

/-- C9: when `getCert` succeeds and `CreateCert` returned the DER certificates
`ders` during the call, the certificate file holds exactly
`pemEncode("CERTIFICATE", d1) ++ ... ++ pemEncode("CERTIFICATE", dn)`, in the
order received. -/
theorem getCert_writes_chain (env : Env) (c : configServerWeb) (w : World) (client : Client)
    (csr : Bytes) (bundle : Bool) (ders : List Bytes)
    (hok : (getCert env c w).1 = .ok ())
    (hev : Event.createCert client csr bundle (.ok ders) ∈ newEvents w (getCert env c w).2) :
    (getCert env c w).2.files (crtPath c.Domain) =
      some (Node.file ((ders.map (fun d => env.pemEncodeToMemory ⟨x509PublicKey, d⟩)).flatten)) := by
  have fg := generateAccountConfig_setup_frame env c w
  obtain ⟨e1, ht1, hP1⟩ := fg.trace
  rcases getCert_cases env c w with h | ⟨ac, hac, h⟩
  · exfalso
    rw [h] at hev
    rw [newEvents_append _ _ _ ht1] at hev
    have := hP1 _ hev
    simp [Event.isAccountSetup] at this
  · rw [h] at hok hev ⊢
    obtain ⟨pre, client2, csr2, cert, hne, hpre, hfile⟩ := issueCert_ok env c ac _ hok
    have htr := issueCert_trace env c ac (generateAccountConfig env c w).2
    rw [hne, ht1, List.append_assoc] at htr
    rw [newEvents_append _ _ _ htr] at hev
    simp only [List.mem_append, List.mem_singleton] at hev
    rcases hev with hev | hev | hev
    · have := hP1 _ hev
      simp [Event.isAccountSetup] at this
    · have := hpre _ hev
      simp [Event.isCreateCertOk] at this
    · simp only [Event.createCert.injEq, Reply.ok.injEq] at hev
      rw [hfile, encodeChain_eq, hev.2.2.2]

theorem getCert_writes_chain_witness :
    (getCert mockEnv mockConfig emptyWorld).1 = .ok () ∧
    (getCert mockEnv mockConfig emptyWorld).2.files (crtPath "example.com") =
      some (Node.file (([[10], [20]] : List Bytes).map
        (fun d => mockEnv.pemEncodeToMemory ⟨x509PublicKey, d⟩)).flatten) :=
  ⟨by decide,
    getCert_writes_chain mockEnv mockConfig emptyWorld
      ⟨some (Signer.ecdsa 7), "https://ca.test/directory"⟩ (stringBytes "example.com") true
      [[10], [20]] (by decide) (by decide)⟩

/-- C1, as stated, fails: the certificate on disk is valid for 100 more days
with a threshold of 21, there are no account files, and `getCert` succeeds but
has called `Register`, because account setup runs before the renewal check. -/
theorem getCert_valid_cert_still_registers :
    readCrt mockEnv (crtPath "example.com") validCertWorld = .ok ⟨200 * nsPerDay⟩ ∧
    200 * nsPerDay - mockEnv.now > ((mockConfig.Remaining : Nat) : Int) * nsPerDay ∧
    (getCert mockEnv mockConfig validCertWorld).1 = .ok () ∧
    (newEvents validCertWorld (getCert mockEnv mockConfig validCertWorld).2).filter
        Event.isRegister =
      [.register ⟨some (Signer.ecdsa 7), "https://ca.test/directory"⟩
        ⟨"", ["mailto:admin@example.com"], ""⟩
        (.ok ⟨"https://ca.test/reg/1", ["mailto:admin@example.com"], ""⟩)] := by
  decide

/-- C1, amended: when the domain's certificate file decodes to a certificate
whose not-after time `T` satisfies `T - now > R` days, `getCert` ends where
account setup (`generateAccountConfig`, which runs first) ends and returns its
result, success when account setup succeeds; every event it records is an
account-setup event (key generation or `Register`), so no `Authorize`,
`Accept`, `WaitAuthorization` or `CreateCert` call is made. -/
theorem getCert_valid_cert_no_issuance (env : Env) (c : configServerWeb) (w : World)
    (b : Bytes) (d : Block) (crt : Certificate)
    (hfile : w.files (crtPath c.Domain) = some (Node.file b))
    (hpem : env.pemDecode b = some d) (htype : d.type = x509PublicKey)
    (hparse : env.parseCertificate d.bytes = .ok crt)
    (hvalid : crt.NotAfter - env.now > (c.Remaining : Int) * nsPerDay) :
    getCert env c w =
      ((generateAccountConfig env c w).1.void, (generateAccountConfig env c w).2) ∧
    (∀ e ∈ newEvents w (getCert env c w).2,
      e.isAccountSetup = true ∧ e.isIssuanceCall = false) := by
  have fg := generateAccountConfig_setup_frame env c w
  have hkeep := generateAccountConfig_keeps_crt env c w
  have hread : readCrt env (crtPath c.Domain) (generateAccountConfig env c w).2 = .ok crt := by
    simp [readCrt, ReadFile, hkeep, hfile, hpem, htype, hparse]
  have hskip := stillValid_of_gt crt.NotAfter env.now c.Remaining hvalid
  have hget : getCert env c w =
      ((generateAccountConfig env c w).1.void, (generateAccountConfig env c w).2) := by
    unfold getCert
    change readCrt env (Join [defaultConfigDir, "webs", c.Domain, c.Domain ++ ".crt"])
      (generateAccountConfig env c w).2 = .ok crt at hread
    cases hg : generateAccountConfig env c w with
    | mk r w1 =>
      rw [hg] at hread
      cases r with
      | panic msg => rfl
      | err e => rfl
      | ok ac =>
        dsimp only at hread ⊢
        rw [hread]
        simp [hskip, Res.void]
  refine ⟨hget, ?_⟩
  obtain ⟨evs, ht, hP⟩ := fg.trace
  rw [hget, newEvents_append _ _ _ ht]
  intro e he
  have h1 := hP e he
  refine ⟨h1, ?_⟩
  cases e <;> simp_all [Event.isAccountSetup, Event.isIssuanceCall]

theorem getCert_valid_cert_no_issuance_witness :
    validCertWorld.files (crtPath mockConfig.Domain) = some (Node.file [3, 200]) ∧
    (getCert mockEnv mockConfig validCertWorld =
        ((generateAccountConfig mockEnv mockConfig validCertWorld).1.void,
          (generateAccountConfig mockEnv mockConfig validCertWorld).2) ∧
      (∀ e ∈ newEvents validCertWorld (getCert mockEnv mockConfig validCertWorld).2,
        e.isAccountSetup = true ∧ e.isIssuanceCall = false)) :=
  ⟨by decide,
    getCert_valid_cert_no_issuance mockEnv mockConfig validCertWorld [3, 200]
      ⟨x509PublicKey, [200]⟩ ⟨200 * nsPerDay⟩ (by decide) (by decide) rfl (by decide) (by decide)⟩

/-- C5, as stated, fails: the certificate on disk expires in ten days, the CA
issues a new chain, the final write opens (and so truncates) the certificate
file and then fails; `getCert` returns the error and the file is empty. -/
theorem getCert_failed_write_truncates :
    expiringCertWorld.files (crtPath "example.com") = some (Node.file [3, 110]) ∧
    (getCert diskFullEnv mockConfig expiringCertWorld).1 =
      .err (.wrap "example.com"
        (.fs "webs/example.com/example.com.crt" "no space left on device")) ∧
    (getCert diskFullEnv mockConfig expiringCertWorld).2.files (crtPath "example.com") =
      some (Node.file []) ∧
    (getCert diskFullEnv mockConfig expiringCertWorld).2.files (crtPath "example.com") ≠
      expiringCertWorld.files (crtPath "example.com") := by
  decide

/-- C5, amended: when `getCert` returns an error and no `CreateCert` call
returned a chain during the run (the error comes from account setup,
certificate-key loading, CSR creation, authorization or certificate creation),
the certificate file is as it was before the call, absent if it was absent. -/
theorem getCert_error_keeps_cert (env : Env) (c : configServerWeb) (w : World) (e : Error)
    (herr : (getCert env c w).1 = .err e)
    (hno : ∀ ev ∈ newEvents w (getCert env c w).2, ev.isCreateCertOk = false) :
    (getCert env c w).2.files (crtPath c.Domain) = w.files (crtPath c.Domain) := by
  have _ := herr
  have hkeep := generateAccountConfig_keeps_crt env c w
  obtain ⟨e1, ht1, _⟩ := (generateAccountConfig_setup_frame env c w).trace
  rcases getCert_cases env c w with h | ⟨ac, _, h⟩
  · rw [h]; exact hkeep
  · rw [h] at hno ⊢
    have htr := issueCert_trace env c ac (generateAccountConfig env c w).2
    rw [ht1, List.append_assoc] at htr
    rw [newEvents_append _ _ _ htr] at hno
    rw [issueCert_no_chain env c ac _ (fun ev hev => hno ev (List.mem_append_right _ hev))]
    exact hkeep

theorem getCert_error_keeps_cert_witness :
    (getCert rateLimitedEnv mockConfig expiringCertWorld).1 =
      .err (.wrap "example.com" (.lib "urn:acme:error:rateLimited")) ∧
    (getCert rateLimitedEnv mockConfig expiringCertWorld).2.files (crtPath mockConfig.Domain) =
      expiringCertWorld.files (crtPath mockConfig.Domain) :=
  ⟨by decide,
    getCert_error_keeps_cert rateLimitedEnv mockConfig expiringCertWorld
      (.wrap "example.com" (.lib "urn:acme:error:rateLimited")) (by decide) (by decide)⟩

/-! ## Account setup -/

theorem writeAccountConfig_ok (env : Env) (domain : String) (ac : accountConfig) (w : World)
    (h : (writeAccountConfig env domain ac w).1 = none) :
    ∃ b, env.jsonMarshalIndent ac = .ok b ∧
      (writeAccountConfig env domain ac w).2.files (accountJsonPath domain) = some (Node.file b) ∧
      (writeAccountConfig env domain ac w).2.trace = w.trace := by
  unfold writeAccountConfig at h ⊢
  cases hm : env.jsonMarshalIndent ac with
  | fail msg => simp [hm] at h
  | ok b =>
    simp only [hm] at h ⊢
    cases hd : MkdirAll env (Join [Dir defaultConfigDir, "webs", domain]) w with
    | some e => simp [hd] at h
    | none =>
      simp only [hd] at h ⊢
      exact ⟨b, rfl, WriteFile_ok _ _ _ _ h, WriteFile_trace _ _ _ _⟩

/-- A successful `registerAccount` made one `Register` call, with the
configured contact, and stored the account the CA returned. -/
theorem registerAccount_ok (env : Env) (c : configServerWeb) (w : World) (ac : accountConfig)
    (h : (registerAccount env c w).1 = .ok ac) :
    ∃ key a b pre, ac = ⟨a, "", some key⟩ ∧ env.jsonMarshalIndent ac = .ok b ∧
      newEvents w (registerAccount env c w).2 =
        pre ++ [.register ⟨some key, c.Disco⟩ ⟨"", ["mailto:" ++ c.Email], ""⟩ (.ok a)] ∧
      (∀ e ∈ pre, e.isRegister = false) ∧
      (registerAccount env c w).2.files (accountJsonPath c.Domain) = some (Node.file b) := by
  have fk : Frame (fun e => e.isRegister = false) (fun _ => True) w
      (anyKey env (Join [Dir defaultConfigDir, "webs", c.Domain, "account.key"]) true w).2 :=
    anyKey_frame env true w trivial (fun _ => rfl)
  unfold registerAccount at h ⊢
  cases hd : MkdirAll env (Join [Dir defaultConfigDir, "webs", c.Domain]) w with
  | some e => simp [hd] at h
  | none =>
    simp only [hd] at h ⊢
    cases hk : anyKey env (Join [Dir defaultConfigDir, "webs", c.Domain, "account.key"]) true w with
    | mk r w1 =>
      rw [hk] at fk
      obtain ⟨pre, hpre, hP⟩ := fk.trace
      have hpre2 : w1.trace = w.trace ++ pre := hpre
      simp only [hk] at h ⊢
      cases r with
      | error e => simp at h
      | ok key =>
        dsimp only at h ⊢
        cases hr : env.register w1 ⟨some key, c.Disco⟩ ⟨"", ["mailto:" ++ c.Email], ""⟩ with
        | fail msg => simp [hr] at h
        | ok a =>
          simp only [hr] at h ⊢
          cases hw : writeAccountConfig env c.Domain ⟨a, "", some key⟩
            (w1.log (.register ⟨some key, c.Disco⟩ ⟨"", ["mailto:" ++ c.Email], ""⟩ (.ok a))) with
          | mk rw w3 =>
            simp only [hw] at h ⊢
            cases rw with
            | some e => simp at h
            | none =>
              dsimp only at h ⊢
              simp only [Res.ok.injEq] at h
              obtain ⟨b, hb, hfile, htr⟩ := writeAccountConfig_ok env c.Domain ⟨a, "", some key⟩
                (w1.log (.register ⟨some key, c.Disco⟩ ⟨"", ["mailto:" ++ c.Email], ""⟩ (.ok a)))
                (by rw [hw])
              rw [hw] at hfile htr
              refine ⟨key, a, b, pre, h.symm, by rw [← h]; exact hb, ?_, hP, hfile⟩
              apply newEvents_append
              simp only at htr
              rw [htr]
              simp [World.log, hpre2]

/-- C4, as stated, fails: the stored account has another contact, the CA
answers the registration with an account that lists no contact, and the record
persisted to `webs/example.com/account.json` has an empty contact list, not
the configured contact. -/
theorem generateAccountConfig_stores_ca_reply :
    readAccountConfig silentCAEnv "example.com" oldAccountWorld =
      .ok ⟨⟨"https://ca.test/reg/1", ["mailto:old@example.com"], ""⟩, "", some (Signer.ecdsa 7)⟩ ∧
    (generateAccountConfig silentCAEnv mockConfig oldAccountWorld).1 =
      .ok ⟨⟨"https://ca.test/reg/1", [], ""⟩, "", some (Signer.ecdsa 7)⟩ ∧
    (newEvents oldAccountWorld (generateAccountConfig silentCAEnv mockConfig oldAccountWorld).2).filter
        Event.isRegister =
      [.register ⟨some (Signer.ecdsa 7), "https://ca.test/directory"⟩
        ⟨"", ["mailto:admin@example.com"], ""⟩ (.ok ⟨"https://ca.test/reg/1", [], ""⟩)] ∧
    storedContact silentCAEnv (generateAccountConfig silentCAEnv mockConfig oldAccountWorld).2
        "example.com" = some [] ∧
    storedContact silentCAEnv (generateAccountConfig silentCAEnv mockConfig oldAccountWorld).2
        "example.com" ≠ some ["mailto:" ++ mockConfig.Email] := by
  decide

/-- C4, amended: when no stored account matches the configured email and
`generateAccountConfig` succeeds, it has issued exactly one registration
request, carrying contact `["mailto:" + newEmail]`, and the record persisted to
`webs/<domain>/account.json` is the marshalled account that the CA returned
from that registration, which is also the account returned to the caller. -/
theorem generateAccountConfig_registers_on_mismatch (env : Env) (c : configServerWeb)
    (w : World) (ac : accountConfig)
    (hok : (generateAccountConfig env c w).1 = .ok ac)
    (hmis : ∀ ac0, readAccountConfig env c.Domain w = .ok ac0 → ac0.key ≠ none →
      ac0.Account.Contact.head? ≠ some ("mailto:" ++ c.Email)) :
    ∃ key a b, ac = ⟨a, "", some key⟩ ∧ env.jsonMarshalIndent ac = .ok b ∧
      (newEvents w (generateAccountConfig env c w).2).filter Event.isRegister =
        [.register ⟨some key, c.Disco⟩ ⟨"", ["mailto:" ++ c.Email], ""⟩ (.ok a)] ∧
      (generateAccountConfig env c w).2.files (accountJsonPath c.Domain) = some (Node.file b) := by
  have hreg : generateAccountConfig env c w = registerAccount env c w := by
    unfold generateAccountConfig at hok ⊢
    cases hr : readAccountConfig env c.Domain w with
    | error e => rfl
    | ok ac0 =>
      simp only [hr] at hok ⊢
      by_cases hk : ac0.key ≠ none
      · rw [if_pos hk] at hok ⊢
        cases hc : ac0.Account.Contact with
        | nil => simp [hc] at hok
        | cons first rest =>
          simp only [hc] at hok ⊢
          have := hmis ac0 hr hk
          rw [hc] at this
          have hne : first ≠ "mailto:" ++ c.Email := by
            intro h; exact this (by simp [h])
          simp [hne]
      · rw [if_neg hk]
  rw [hreg] at hok ⊢
  obtain ⟨key, a, b, pre, h1, h2, h3, h4, h5⟩ := registerAccount_ok env c w ac hok
  refine ⟨key, a, b, h1, h2, ?_, h5⟩
  rw [h3, List.filter_append]
  have : pre.filter Event.isRegister = [] := by
    rw [List.filter_eq_nil_iff]
    intro e he
    simp [h4 e he]
  simp [this, Event.isRegister]

theorem generateAccountConfig_registers_on_mismatch_witness :
    readAccountConfig mockEnv mockConfig.Domain oldAccountWorld =
      .ok ⟨⟨"https://ca.test/reg/1", ["mailto:old@example.com"], ""⟩, "", some (Signer.ecdsa 7)⟩ ∧
    (generateAccountConfig mockEnv mockConfig oldAccountWorld).1 =
      .ok ⟨⟨"https://ca.test/reg/1", ["mailto:admin@example.com"], ""⟩, "",
        some (Signer.ecdsa 7)⟩ ∧
    ∃ key a b,
      (⟨⟨"https://ca.test/reg/1", ["mailto:admin@example.com"], ""⟩, "",
        some (Signer.ecdsa 7)⟩ : accountConfig) = ⟨a, "", some key⟩ ∧
      mockEnv.jsonMarshalIndent ⟨⟨"https://ca.test/reg/1", ["mailto:admin@example.com"], ""⟩, "",
        some (Signer.ecdsa 7)⟩ = .ok b ∧
      (newEvents oldAccountWorld (generateAccountConfig mockEnv mockConfig oldAccountWorld).2).filter
          Event.isRegister =
        [.register ⟨some key, mockConfig.Disco⟩ ⟨"", ["mailto:" ++ mockConfig.Email], ""⟩ (.ok a)] ∧
      (generateAccountConfig mockEnv mockConfig oldAccountWorld).2.files
        (accountJsonPath mockConfig.Domain) = some (Node.file b) :=
  ⟨by decide, by decide,
    generateAccountConfig_registers_on_mismatch mockEnv mockConfig oldAccountWorld
      ⟨⟨"https://ca.test/reg/1", ["mailto:admin@example.com"], ""⟩, "", some (Signer.ecdsa 7)⟩
      (by decide)
      (by
        intro ac0 h0 _
        have h1 : readAccountConfig mockEnv mockConfig.Domain oldAccountWorld =
            .ok ⟨⟨"https://ca.test/reg/1", ["mailto:old@example.com"], ""⟩, "",
              some (Signer.ecdsa 7)⟩ := by decide
        rw [h1] at h0
        simp only [Except.ok.injEq] at h0
        subst h0
        decide)⟩

/-- C3, on the code: `generateAccountConfig` looks for the account record at
`Join(Dir(defaultConfigDir), domain, "account.json")`, without the `webs`
element; when nothing is there it goes on to register, whatever is stored at
the documented location `webs/<domain>/account.json`. -/
theorem generateAccountConfig_ignores_stored_account (env : Env) (c : configServerWeb)
    (w : World) (hnone : w.files (Join [Dir defaultConfigDir, c.Domain, "account.json"]) = none) :
    readAccountConfig env c.Domain w =
      .error (.notExist (Join [Dir defaultConfigDir, c.Domain, "account.json"])) ∧
    generateAccountConfig env c w = registerAccount env c w := by
  have h : readAccountConfig env c.Domain w =
      .error (.notExist (Join [Dir defaultConfigDir, c.Domain, "account.json"])) := by
    simp [readAccountConfig, ReadFile, hnone]
  exact ⟨h, by simp [generateAccountConfig, h]⟩

/-- The failing input of C3: a record for the configured email at
`webs/example.com/account.json` with a decodable key next to it; the call
registers again.  So does a second call after a successful first one. -/
theorem generateAccountConfig_ignores_stored_account_witness :
    storedContact mockEnv storedAccountWorld "example.com" = some ["mailto:" ++ mockConfig.Email] ∧
    readKey mockEnv (accountKeyPath "example.com") storedAccountWorld = .ok (Signer.ecdsa 7) ∧
    accountJsonPath "example.com" = "webs/example.com/account.json" ∧
    Join [Dir defaultConfigDir, "example.com", "account.json"] = "example.com/account.json" ∧
    generateAccountConfig mockEnv mockConfig storedAccountWorld =
      registerAccount mockEnv mockConfig storedAccountWorld ∧
    newEvents storedAccountWorld (generateAccountConfig mockEnv mockConfig storedAccountWorld).2 =
      [.register ⟨some (Signer.ecdsa 7), "https://ca.test/directory"⟩
        ⟨"", ["mailto:admin@example.com"], ""⟩
        (.ok ⟨"https://ca.test/reg/1", ["mailto:admin@example.com"], ""⟩)] ∧
    (generateAccountConfig mockEnv mockConfig emptyWorld).1 =
      .ok ⟨⟨"https://ca.test/reg/1", ["mailto:admin@example.com"], ""⟩, "",
        some (Signer.ecdsa 7)⟩ ∧
    (newEvents (generateAccountConfig mockEnv mockConfig emptyWorld).2
        (generateAccountConfig mockEnv mockConfig
          (generateAccountConfig mockEnv mockConfig emptyWorld).2).2).filter Event.isRegister =
      [.register ⟨some (Signer.ecdsa 7), "https://ca.test/directory"⟩
        ⟨"", ["mailto:admin@example.com"], ""⟩
        (.ok ⟨"https://ca.test/reg/1", ["mailto:admin@example.com"], ""⟩)] :=
  ⟨by decide, by decide, by decide, by decide,
    (generateAccountConfig_ignores_stored_account mockEnv mockConfig storedAccountWorld
      (by decide)).2,
    by decide, by decide, by decide⟩

/-- C10, on the code: when the stored record decodes, its key loads and its
contact list is empty, `generateAccountConfig` panics on `ac.Contact[0]`
instead of returning the record or registering, and `getCert` with it. -/
theorem generateAccountConfig_panics_on_empty_contact (env : Env) (c : configServerWeb)
    (w : World) (ac0 : accountConfig)
    (hread : readAccountConfig env c.Domain w = .ok ac0) (hkey : ac0.key ≠ none)
    (hempty : ac0.Account.Contact = []) :
    generateAccountConfig env c w = (.panic "index out of range [0] with length 0", w) ∧
    getCert env c w = (.panic "index out of range [0] with length 0", w) := by
  have h : generateAccountConfig env c w = (.panic "index out of range [0] with length 0", w) := by
    unfold generateAccountConfig
    rw [hread]
    dsimp only
    rw [if_pos hkey, hempty]
  exact ⟨h, by simp [getCert, h]⟩

/-- The failing input of C10: `example.com/account.json` holds a record without
contacts and `webs/example.com/account.key` an EC key. -/
theorem generateAccountConfig_panics_on_empty_contact_witness :
    readAccountConfig mockEnv mockConfig.Domain emptyContactWorld =
      .ok ⟨⟨"", [], ""⟩, "", some (Signer.ecdsa 7)⟩ ∧
    (generateAccountConfig mockEnv mockConfig emptyContactWorld).1 =
      .panic "index out of range [0] with length 0" ∧
    (getCert mockEnv mockConfig emptyContactWorld).1 =
      .panic "index out of range [0] with length 0" :=
  ⟨by decide,
    by rw [(generateAccountConfig_panics_on_empty_contact mockEnv mockConfig emptyContactWorld
      ⟨⟨"", [], ""⟩, "", some (Signer.ecdsa 7)⟩ (by decide) (by decide) rfl).1],
    by rw [(generateAccountConfig_panics_on_empty_contact mockEnv mockConfig emptyContactWorld
      ⟨⟨"", [], ""⟩, "", some (Signer.ecdsa 7)⟩ (by decide) (by decide) rfl).2]⟩

end Acmed
